import Mathlib

/-!
Spatial prisoner's dilemma (`spatial.go`)

A shallow embedding of the simulation engine of `spatial.go`: the payoff rule
`gameBetween`, the neighbourhood game `game`, the score phase `updateScores`,
the strategy phase `updateStrategies` with its decision rule `decide`, and the
step loop `evolve`.

Modelling conventions.

* A Go `[][]Cell` is a `List (List Cell)`; the in-place writes of the source are
  explicit state passing, one write per loop iteration, in the source's order.
* `float64` scores and the parameter `b` are exact rationals in the first
  embedding (namespace `Spatial`). A second embedding of the same functions
  (namespace `Spatial.AnyNum`) takes the number type and its operations as
  parameters and assumes nothing of them; what is proved there holds for
  `float64` addition, which rounds, as well.
* Go `int` coordinates are `Int` (a neighbour coordinate may be `-1`); loop
  counters that run from `0` are `Nat`.
* A run-time panic is a value of `Fault`; a function that can panic returns
  in `Except Fault`.
-/

namespace Spatial

/-! ## The program -/


/-- The two ways the simulation code can stop with a run-time panic. -/
inductive Fault where
  /-- An index expression `s[k]` with `k` outside `0 .. len(s) - 1`. -/
  | indexOutOfRange
  /-- The explicit `panic("This shouldn't happen")` of `gameBetween`. -/
  | shouldntHappen
deriving DecidableEq, Repr

deriving instance DecidableEq for Except

/-- The data stored in a single cell of a field (`type Cell struct`). -/
structure Cell where
  kind : String
  score : ℚ
  pre_kind : String
deriving DecidableEq, Repr

/-- A field is a slice of rows, each row a slice of cells. -/
abbrev Field := List (List Cell)

/-- The zero value of `Cell`, as produced by `make([]Cell, n)`. -/
def Cell.zero : Cell := { kind := "", score := 0, pre_kind := "" }

/-- An element that is there, or the index panic. -/
def orFault {α : Type} (o : Option α) : Except Fault α :=
  match o with
  | some v => .ok v
  | none => .error .indexOutOfRange

/-- Go index expression `s[k]` for an `int` index: panics outside the range. -/
def index {α : Type} (s : List α) (k : Int) : Except Fault α :=
  if k < 0 then .error .indexOutOfRange else orFault s[k.toNat]?

/-- Go expression `field[x][y]`. -/
def cellAt (field : Field) (x y : Int) : Except Fault Cell := do
  let r ← index field x
  index r y

/-- Go statement `field[i][j] = c` (all writes of the source go through a
cell selected by two in-loop counters). -/
def setCell (field : Field) (i j : Nat) (c : Cell) : Except Fault Field :=
  match field[i]? with
  | none => .error .indexOutOfRange
  | some r => if j < r.length then .ok (field.set i (r.set j c)) else .error .indexOutOfRange

/-- Go expression `len(field[0])`: panics on a field without rows. -/
def lenRow0 (field : Field) : Except Fault Nat :=
  match field with
  | [] => .error .indexOutOfRange
  | r :: _ => .ok r.length

/-- The function `createField`: `rsize` rows of `csize` zero cells. -/
def createField (rsize csize : Nat) : Field :=
  List.replicate rsize (List.replicate csize Cell.zero)

/-- The function `inField`. The conjunction short-circuits, so `len(field[0])`
is evaluated only when `0 <= row < len(field)`, where `field[0]` exists. -/
def inField (field : Field) (row col : Int) : Bool :=
  Decidable.decide (row ≥ 0) && Decidable.decide (row < (field.length : Int)) &&
    Decidable.decide (col ≥ 0) &&
    (match field with
     | [] => false
     | r :: _ => Decidable.decide (col < (r.length : Int)))

/-- The function `gameBetween`: the reward of `me` against `them`. -/
def gameBetween (me them : String) (b : ℚ) : Except Fault ℚ :=
  if me = "C" ∧ them = "C" then .ok 1
  else if me = "C" ∧ them = "D" then .ok 0
  else if me = "D" ∧ them = "C" then .ok b
  else if me = "D" ∧ them = "D" then .ok 0
  else .error .shouldntHappen

/-- The values taken by `x` in `for x := i - 1; x <= i + 1; x++`. -/
def span (i : Int) : List Int := [i - 1, i, i + 1]

/-- The function `game`: the sum of the rewards of cell `(i, j)` against every
neighbour that `inField` accepts. -/
def game (field : Field) (i j : Int) (b : ℚ) : Except Fault ℚ :=
  (span i).foldlM (fun res x =>
    (span j).foldlM (fun res y =>
      if inField field x y then do
        let me ← cellAt field i j
        let them ← cellAt field x y
        let r ← gameBetween me.kind them.kind b
        pure (res + r)
      else pure res) res) 0

/-- The function `updateScores`: every cell's score is overwritten, in place
and in row-major order, by `game` on the field as it is at that moment. -/
def updateScores (field : Field) (b : ℚ) : Except Fault Field := do
  let row := field.length
  let col ← lenRow0 field
  (List.range row).foldlM (fun field (i : Nat) =>
    (List.range col).foldlM (fun field (j : Nat) => do
      let s ← game field i j b
      let c ← cellAt field i j
      setCell field i j { c with score := s }) field) field

/-- The function `decide`: the kind of the best-scoring neighbour, the running
best being replaced only by a strictly greater score. -/
def decide (field : Field) (i j : Int) : Except Fault String := do
  let own ← cellAt field i j
  let best ← (span i).foldlM (fun acc x =>
    (span j).foldlM (fun (acc : String × ℚ) y =>
      if inField field x y then do
        let c ← cellAt field x y
        pure (if acc.2 < c.score then (c.kind, c.score) else acc)
      else pure acc) acc) (own.kind, own.score)
  pure best.1

/-- The first loop nest of `updateStrategies`: the snapshot `f`, a fresh
`row` by `col` field that receives the score and the kind of every cell. -/
def snapshot (field : Field) (row col : Nat) : Except Fault Field :=
  (List.range row).foldlM (fun f (i : Nat) =>
    (List.range col).foldlM (fun f (j : Nat) => do
      let src ← cellAt field i j
      let dst ← cellAt f i j
      setCell f i j { dst with score := src.score, kind := src.kind }) f)
    (createField row col)

/-- The function `updateStrategies`: after the snapshot is taken, every cell,
in place and in row-major order, saves its kind in `pre_kind` and takes the
kind that `decide` computes on the snapshot. -/
def updateStrategies (field : Field) : Except Fault Field := do
  let row := field.length
  let col ← lenRow0 field
  let f ← snapshot field row col
  (List.range row).foldlM (fun field (i : Nat) =>
    (List.range col).foldlM (fun field (j : Nat) => do
      let c ← cellAt field i j
      let field ← setCell field i j { c with pre_kind := c.kind }
      let k ← decide f i j
      let c ← cellAt field i j
      setCell field i j { c with kind := k }) field) field

/-- One iteration of the loop body of `evolve`. -/
def step (field : Field) (b : ℚ) : Except Fault Field := do
  let field ← updateScores field b
  updateStrategies field

/-- The loop of `evolve`, run `n` times. -/
def evolveLoop (field : Field) (n : Nat) (b : ℚ) : Except Fault Field :=
  (List.range n).foldlM (fun field _ => step field b) field

/-- The function `evolve`: the loop `for i := 0; i < nsteps; i++` runs
`nsteps` times, and not at all for a negative `nsteps`. -/
def evolve (field : Field) (nsteps : Int) (b : ℚ) : Except Fault Field :=
  evolveLoop field nsteps.toNat b

/-! ## Predicates on fields, observers, and the loop bodies by name -/

/-- Every row of the field has `cols` cells and there are `rows` rows. -/
def Rect (field : Field) (rows cols : Nat) : Prop :=
  field.length = rows ∧ ∀ r ∈ field, r.length = cols

/-- Every cell's kind is `"C"` or `"D"`. -/
def AllCD (field : Field) : Prop :=
  ∀ r ∈ field, ∀ c ∈ r, c.kind = "C" ∨ c.kind = "D"

/-- Build a field from rows of kinds, as `readFieldFromFile` fills a fresh field. -/
def ofKinds (rows : List (List String)) : Field :=
  rows.map (fun r => r.map (fun k => { Cell.zero with kind := k }))

instance (field : Field) (rows cols : Nat) : Decidable (Rect field rows cols) := by
  unfold Rect
  infer_instance

instance (field : Field) : Decidable (AllCD field) := by
  unfold AllCD
  infer_instance

/-- The 2 by 2 field with rows `CD` and `DC`. -/
def grid2 : Field := ofKinds [["C", "D"], ["D", "C"]]

/-- The coordinate `(x, y)` is one of the 3 by 3 block around `(i, j)` and lies
in a `rows` by `cols` grid. -/
def InNbhd (rows cols : Nat) (i j x y : Int) : Prop :=
  i - 1 ≤ x ∧ x ≤ i + 1 ∧ j - 1 ≤ y ∧ y ≤ j + 1 ∧
    0 ≤ x ∧ x < (rows : Int) ∧ 0 ≤ y ∧ y < (cols : Int)

/-- The strategy phase as the spec words it: a simultaneous, double-buffered
update. A second field is built cell by cell, each cell from the field as it
was before the phase only: its kind is `decide` on that field, its `pre_kind`
is the kind it had, its score is kept. Nothing is written to the field that
is read. -/
def updateStrategiesSimultaneous (field : Field) : Except Fault Field := do
  let row := field.length
  let col ← lenRow0 field
  (List.range row).mapM (fun (i : Nat) =>
    (List.range col).mapM (fun (j : Nat) => do
      let c ← cellAt field i j
      let k ← decide field i j
      pure { kind := k, score := c.score, pre_kind := c.kind }))

/-- The kinds of a field, row by row. -/
def kinds (field : Field) : List (List String) := field.map (List.map Cell.kind)

/-- The scores of a field, row by row. -/
def scores (field : Field) : List (List ℚ) := field.map (List.map Cell.score)

/-- The cell at row `i`, column `j`, when there is one. -/
def cell? (field : Field) (i j : Nat) : Option Cell :=
  (field[i]?).bind (fun r => r[j]?)

/-- Replace every cell by a function of its position and its content. -/
def mapCells (g : Nat → Nat → Cell → Cell) (field : Field) : Field :=
  field.mapIdx (fun i r => r.mapIdx (fun j c => g i j c))

/-- The field in the middle of a row-major sweep that rewrites each cell by `g`:
the cells before position `(i, j)` are rewritten, the others are not yet. -/
def stage (g : Nat → Nat → Cell → Cell) (i j : Nat) (field : Field) : Field :=
  mapCells (fun i' j' c => if i' < i ∨ (i' = i ∧ j' < j) then g i' j' c else c) field

/-- The kind that `field[x][y].kind` reads (`""` where the read would panic). -/
def kindAt (field : Field) (x y : Int) : String :=
  match cellAt field x y with
  | .ok c => c.kind
  | .error _ => ""

/-- The score that `field[x][y].score` reads (`0` where the read would panic). -/
def scoreAt (field : Field) (x y : Int) : ℚ :=
  match cellAt field x y with
  | .ok c => c.score
  | .error _ => 0

/-- The reward that `gameBetween` returns (`0` where it panics). -/
def reward (me them : String) (b : ℚ) : ℚ :=
  match gameBetween me them b with
  | .ok r => r
  | .error _ => 0

/-- The sum of `t` over the 3 by 3 block of coordinates around `(i, j)`. -/
def blockSum (t : Int → Int → ℚ) (i j : Int) : ℚ :=
  ∑ x ∈ Finset.Icc (i - 1) (i + 1), ∑ y ∈ Finset.Icc (j - 1) (j + 1), t x y

/-- The body of the inner loop of `game`. -/
def gameBody (field : Field) (i j : Int) (b : ℚ) (res : ℚ) (x y : Int) : Except Fault ℚ :=
  if inField field x y then do
    let me ← cellAt field i j
    let them ← cellAt field x y
    let r ← gameBetween me.kind them.kind b
    pure (res + r)
  else pure res

/-- The reward added for the neighbour coordinate `(x, y)`. -/
def term (field : Field) (rows cols : Nat) (i j : Int) (b : ℚ) (x y : Int) : ℚ :=
  if 0 ≤ x ∧ x < (rows : Int) ∧ 0 ≤ y ∧ y < (cols : Int) then
    reward (kindAt field i j) (kindAt field x y) b
  else 0

/-- The score that the score phase gives to cell `(i, j)`. -/
def newScore (field : Field) (rows cols : Nat) (b : ℚ) (i j : Nat) (c : Cell) : Cell :=
  { c with score := blockSum (term field rows cols i j b) i j }

/-- The body of the inner loop of `updateScores`. -/
def scoreBody (b : ℚ) (field : Field) (i j : Nat) : Except Fault Field := do
  let s ← game field i j b
  let c ← cellAt field i j
  setCell field i j { c with score := s }

/-- The body of the inner loop of `decide`. -/
def decideBody (field : Field) (acc : String × ℚ) (x y : Int) : Except Fault (String × ℚ) :=
  if inField field x y then do
    let c ← cellAt field x y
    pure (if acc.2 < c.score then (c.kind, c.score) else acc)
  else pure acc

/-- The coordinate `p` lies in a `rows` by `cols` grid. -/
def InGrid (rows cols : Nat) (p : Int × Int) : Prop :=
  0 ≤ p.1 ∧ p.1 < (rows : Int) ∧ 0 ≤ p.2 ∧ p.2 < (cols : Int)

instance (rows cols : Nat) (p : Int × Int) : Decidable (InGrid rows cols p) := by
  unfold InGrid
  infer_instance

/-- One step of the scan of `decide`: the running best `(kind, score)` is
replaced by the cell at `p` when `p` is in the grid and its score is strictly
greater. -/
def pick (field : Field) (rows cols : Nat) (acc : String × ℚ) (p : Int × Int) : String × ℚ :=
  if InGrid rows cols p ∧ acc.2 < scoreAt field p.1 p.2 then
    (kindAt field p.1 p.2, scoreAt field p.1 p.2)
  else acc

/-- The coordinates of the 3 by 3 block around `(i, j)` in the scan order of
`game` and `decide`: row offset outer, column offset inner. -/
def block (i j : Int) : List (Int × Int) :=
  [(i - 1, j - 1), (i - 1, j), (i - 1, j + 1),
   (i, j - 1), (i, j), (i, j + 1),
   (i + 1, j - 1), (i + 1, j), (i + 1, j + 1)]

/-- The kind that `decide` returns at `(i, j)` on a `rows` by `cols` field. -/
def best (field : Field) (rows cols : Nat) (i j : Int) : String :=
  ((block i j).foldl (pick field rows cols) (kindAt field i j, scoreAt field i j)).1

/-- Scan order of coordinates: earlier row, or same row and earlier column. -/
def Before (p q : Int × Int) : Prop :=
  p.1 < q.1 ∨ (p.1 = q.1 ∧ p.2 < q.2)

/-- The body of the inner loop of the snapshot copy. -/
def snapBody (field f : Field) (i j : Nat) : Except Fault Field := do
  let src ← cellAt field i j
  let dst ← cellAt f i j
  setCell f i j { dst with score := src.score, kind := src.kind }

/-- The copy of cell `(i, j)` of `field` into a cell of the snapshot. -/
def snapCell (field : Field) (i j : Nat) (dst : Cell) : Cell :=
  match cell? field i j with
  | some src => { dst with score := src.score, kind := src.kind }
  | none => dst

/-- The body of the inner loop of the second loop nest of `updateStrategies`;
`f` is the snapshot. -/
def stratBody (f field : Field) (i j : Nat) : Except Fault Field := do
  let c ← cellAt field i j
  let field ← setCell field i j { c with pre_kind := c.kind }
  let k ← decide f i j
  let c ← cellAt field i j
  setCell field i j { c with kind := k }

/-- The cell that the strategy phase leaves at `(i, j)`. -/
def newKind (field : Field) (rows cols : Nat) (i j : Nat) (c : Cell) : Cell :=
  { c with pre_kind := c.kind, kind := best field rows cols i j }

/-- Every cell of the field has a kind that satisfies `P`. -/
def KindsIn (P : String → Prop) (field : Field) : Prop :=
  ∀ i j c, cell? field i j = some c → P c.kind

/-- The cell that the simultaneous update builds at `(i, j)`. -/
def simCell (field : Field) (rows cols : Nat) (i j : Nat) : Cell :=
  match cell? field i j with
  | some c => newKind field rows cols i j c
  | none => Cell.zero

/-- The `pre_kind`s of a field, row by row. -/
def preKinds (field : Field) : List (List String) := field.map (List.map Cell.pre_kind)

/-! ## The program over an arbitrary score arithmetic

The scores of the source are `float64` values, whose addition rounds. The
definitions below are the same functions with the number type and its
operations as parameters; nothing is assumed of the operations, so `float64`
with its own addition and comparison is one instance. -/

/-- The operations the program uses on scores: the constants `0` and `1` of
`gameBetween` and `game`, the addition of `res += r`, and the comparison
`temp < field[x][y].score`. -/
structure Arith (α : Type) where
  zero : α
  one : α
  add : α → α → α
  lt : α → α → Bool

/-- Exact rational arithmetic, as one instance. -/
def exactArith : Arith ℚ :=
  { zero := 0, one := 1, add := fun x y => x + y, lt := fun x y => Decidable.decide (x < y) }

namespace AnyNum

/-- The data stored in a single cell of a field (`type Cell struct`), the score
being of the number type `α`. -/
structure Cell (α : Type) where
  kind : String
  score : α
  pre_kind : String

/-- A field is a slice of rows, each row a slice of cells. -/
abbrev Field (α : Type) := List (List (Cell α))

/-- The zero value of `Cell`, as produced by `make([]Cell, n)`. -/
def Cell.zero {α : Type} (A : Arith α) : Cell α := { kind := "", score := A.zero, pre_kind := "" }

/-- Go expression `field[x][y]`. -/
def cellAt {γ : Type} (field : List (List γ)) (x y : Int) : Except Fault γ := do
  let r ← index field x
  index r y

/-- Go statement `field[i][j] = c`. -/
def setCell {γ : Type} (field : List (List γ)) (i j : Nat) (c : γ) :
    Except Fault (List (List γ)) :=
  match field[i]? with
  | none => .error .indexOutOfRange
  | some r => if j < r.length then .ok (field.set i (r.set j c)) else .error .indexOutOfRange

/-- Go expression `len(field[0])`: panics on a field without rows. -/
def lenRow0 {γ : Type} (field : List (List γ)) : Except Fault Nat :=
  match field with
  | [] => .error .indexOutOfRange
  | r :: _ => .ok r.length

/-- The function `createField`: `rsize` rows of `csize` zero cells. -/
def createField {α : Type} (A : Arith α) (rsize csize : Nat) : Field α :=
  List.replicate rsize (List.replicate csize (Cell.zero A))

/-- The function `inField`. The conjunction short-circuits, so `len(field[0])`
is evaluated only when `0 <= row < len(field)`, where `field[0]` exists. -/
def inField {γ : Type} (field : List (List γ)) (row col : Int) : Bool :=
  Decidable.decide (row ≥ 0) && Decidable.decide (row < (field.length : Int)) &&
    Decidable.decide (col ≥ 0) &&
    (match field with
     | [] => false
     | r :: _ => Decidable.decide (col < (r.length : Int)))

/-- The function `gameBetween`: the reward of `me` against `them`. -/
def gameBetween {α : Type} (A : Arith α) (me them : String) (b : α) : Except Fault α :=
  if me = "C" ∧ them = "C" then .ok A.one
  else if me = "C" ∧ them = "D" then .ok A.zero
  else if me = "D" ∧ them = "C" then .ok b
  else if me = "D" ∧ them = "D" then .ok A.zero
  else .error .shouldntHappen

/-- The function `game`: starting from `0`, the reward against every neighbour
that `inField` accepts is added to `res`, in the order of the two loops. -/
def game {α : Type} (A : Arith α) (field : Field α) (i j : Int) (b : α) : Except Fault α :=
  (span i).foldlM (fun res x =>
    (span j).foldlM (fun res y =>
      if inField field x y then do
        let me ← cellAt field i j
        let them ← cellAt field x y
        let r ← gameBetween A me.kind them.kind b
        pure (A.add res r)
      else pure res) res) A.zero

/-- The function `updateScores`: every cell's score is overwritten, in place
and in row-major order, by `game` on the field as it is at that moment. -/
def updateScores {α : Type} (A : Arith α) (field : Field α) (b : α) :
    Except Fault (Field α) := do
  let row := field.length
  let col ← lenRow0 field
  (List.range row).foldlM (fun field (i : Nat) =>
    (List.range col).foldlM (fun field (j : Nat) => do
      let s ← game A field i j b
      let c ← cellAt field i j
      setCell field i j { c with score := s }) field) field

/-- The function `decide`: the kind of the best-scoring neighbour, the running
best being replaced only when `temp < score` holds. -/
def decide {α : Type} (A : Arith α) (field : Field α) (i j : Int) : Except Fault String := do
  let own ← cellAt field i j
  let best ← (span i).foldlM (fun acc x =>
    (span j).foldlM (fun (acc : String × α) y =>
      if inField field x y then do
        let c ← cellAt field x y
        pure (if A.lt acc.2 c.score then (c.kind, c.score) else acc)
      else pure acc) acc) (own.kind, own.score)
  pure best.1

/-- The first loop nest of `updateStrategies`: the snapshot `f`, a fresh
`row` by `col` field that receives the score and the kind of every cell. -/
def snapshot {α : Type} (A : Arith α) (field : Field α) (row col : Nat) :
    Except Fault (Field α) :=
  (List.range row).foldlM (fun f (i : Nat) =>
    (List.range col).foldlM (fun f (j : Nat) => do
      let src ← cellAt field i j
      let dst ← cellAt f i j
      setCell f i j { dst with score := src.score, kind := src.kind }) f)
    (createField A row col)

/-- The function `updateStrategies`: after the snapshot is taken, every cell,
in place and in row-major order, saves its kind in `pre_kind` and takes the
kind that `decide` computes on the snapshot. -/
def updateStrategies {α : Type} (A : Arith α) (field : Field α) : Except Fault (Field α) := do
  let row := field.length
  let col ← lenRow0 field
  let f ← snapshot A field row col
  (List.range row).foldlM (fun field (i : Nat) =>
    (List.range col).foldlM (fun field (j : Nat) => do
      let c ← cellAt field i j
      let field ← setCell field i j { c with pre_kind := c.kind }
      let k ← decide A f i j
      let c ← cellAt field i j
      setCell field i j { c with kind := k }) field) field

/-- One iteration of the loop body of `evolve`. -/
def step {α : Type} (A : Arith α) (field : Field α) (b : α) : Except Fault (Field α) := do
  let field ← updateScores A field b
  updateStrategies A field

/-- The loop of `evolve`, run `n` times. -/
def evolveLoop {α : Type} (A : Arith α) (field : Field α) (n : Nat) (b : α) :
    Except Fault (Field α) :=
  (List.range n).foldlM (fun field _ => step A field b) field

/-- The function `evolve`: the loop `for i := 0; i < nsteps; i++` runs
`nsteps` times, and not at all for a negative `nsteps`. -/
def evolve {α : Type} (A : Arith α) (field : Field α) (nsteps : Int) (b : α) :
    Except Fault (Field α) :=
  evolveLoop A field nsteps.toNat b

/-- Every row of the field has `cols` cells and there are `rows` rows. -/
def Rect {γ : Type} (field : List (List γ)) (rows cols : Nat) : Prop :=
  field.length = rows ∧ ∀ r ∈ field, r.length = cols

/-- Every cell's kind is `"C"` or `"D"`. -/
def AllCD {α : Type} (field : Field α) : Prop :=
  ∀ r ∈ field, ∀ c ∈ r, c.kind = "C" ∨ c.kind = "D"

instance {γ : Type} (field : List (List γ)) (rows cols : Nat) :
    Decidable (Rect field rows cols) := by
  unfold Rect
  infer_instance

instance {α : Type} (field : Field α) : Decidable (AllCD field) := by
  unfold AllCD
  infer_instance

/-- Build a field from rows of kinds, as `readFieldFromFile` fills a fresh field. -/
def ofKinds {α : Type} (A : Arith α) (rows : List (List String)) : Field α :=
  rows.map (fun r => r.map (fun k => { Cell.zero A with kind := k }))

/-- The scores of a field, row by row. -/
def scores {α : Type} (field : Field α) : List (List α) := field.map (List.map Cell.score)

/-- The cell at row `i`, column `j`, when there is one. -/
def cell? {γ : Type} (field : List (List γ)) (i j : Nat) : Option γ :=
  (field[i]?).bind (fun r => r[j]?)

/-- Replace every cell by a function of its position and its content. -/
def mapCells {γ : Type} (g : Nat → Nat → γ → γ) (field : List (List γ)) : List (List γ) :=
  field.mapIdx (fun i r => r.mapIdx (fun j c => g i j c))

/-- The field in the middle of a row-major sweep that rewrites each cell by `g`:
the cells before position `(i, j)` are rewritten, the others are not yet. -/
def stage {γ : Type} (g : Nat → Nat → γ → γ) (i j : Nat) (field : List (List γ)) :
    List (List γ) :=
  mapCells (fun i' j' c => if i' < i ∨ (i' = i ∧ j' < j) then g i' j' c else c) field

/-- The kind that `field[x][y].kind` reads (`""` where the read would panic). -/
def kindAt {α : Type} (field : Field α) (x y : Int) : String :=
  match cellAt field x y with
  | .ok c => c.kind
  | .error _ => ""

/-- The `pre_kind` that `field[x][y].pre_kind` reads (`""` where the read would
panic). -/
def preKindAt {α : Type} (field : Field α) (x y : Int) : String :=
  match cellAt field x y with
  | .ok c => c.pre_kind
  | .error _ => ""

/-- The reward that `gameBetween` returns (`0` where it panics). -/
def reward {α : Type} (A : Arith α) (me them : String) (b : α) : α :=
  match gameBetween A me them b with
  | .ok r => r
  | .error _ => A.zero

/-- The sum that `game` accumulates for a player of kind `me` on a `rows` by
`cols` grid whose kinds are read by `kind`: starting from `0`, for each
coordinate of the 3 by 3 block around `(i, j)` in scan order that lies in the
grid, the reward against the kind there is added with the addition of `A`. -/
def scanSum {α : Type} (A : Arith α) (rows cols : Nat) (kind : Int → Int → String)
    (b : α) (i j : Int) : α :=
  (block i j).foldl (fun res p =>
    if InGrid rows cols p then A.add res (reward A (kind i j) (kind p.1 p.2) b) else res)
    A.zero

end AnyNum

namespace AnyNum

/-- The body of the inner loop of `game`. -/
def gameBody {α : Type} (A : Arith α) (field : Field α) (i j : Int) (b : α) (res : α)
    (x y : Int) : Except Fault α :=
  if inField field x y then do
    let me ← cellAt field i j
    let them ← cellAt field x y
    let r ← gameBetween A me.kind them.kind b
    pure (A.add res r)
  else pure res

/-- The cell that the score phase leaves at `(i, j)`. -/
def newScore {α : Type} (A : Arith α) (field : Field α) (rows cols : Nat) (b : α)
    (i j : Nat) (c : Cell α) : Cell α :=
  { c with score := scanSum A rows cols (kindAt field) b i j }

/-- The body of the inner loop of `updateScores`. -/
def scoreBody {α : Type} (A : Arith α) (b : α) (field : Field α) (i j : Nat) :
    Except Fault (Field α) := do
  let s ← game A field i j b
  let c ← cellAt field i j
  setCell field i j { c with score := s }

/-- The body of the inner loop of `decide`. -/
def decideBody {α : Type} (A : Arith α) (field : Field α) (acc : String × α) (x y : Int) :
    Except Fault (String × α) :=
  if inField field x y then do
    let c ← cellAt field x y
    pure (if A.lt acc.2 c.score then (c.kind, c.score) else acc)
  else pure acc

/-- One step of the scan of `decide`: the running best `(kind, score)` is
replaced by the cell at `p` when `p` is in the grid and `temp < score` holds. -/
def pick {α : Type} (A : Arith α) (field : Field α) (rows cols : Nat) (acc : String × α)
    (p : Int × Int) : String × α :=
  if InGrid rows cols p then
    match cellAt field p.1 p.2 with
    | .ok c => if A.lt acc.2 c.score then (c.kind, c.score) else acc
    | .error _ => acc
  else acc

/-- The kind that `decide` returns at `(i, j)` on a `rows` by `cols` field. -/
def best {α : Type} (A : Arith α) (field : Field α) (rows cols : Nat) (i j : Int) : String :=
  match cellAt field i j with
  | .ok own => ((block i j).foldl (pick A field rows cols) (own.kind, own.score)).1
  | .error _ => ""

/-- The body of the inner loop of the snapshot copy. -/
def snapBody {α : Type} (field f : Field α) (i j : Nat) : Except Fault (Field α) := do
  let src ← cellAt field i j
  let dst ← cellAt f i j
  setCell f i j { dst with score := src.score, kind := src.kind }

/-- The copy of cell `(i, j)` of `field` into a cell of the snapshot. -/
def snapCell {α : Type} (field : Field α) (i j : Nat) (dst : Cell α) : Cell α :=
  match cell? field i j with
  | some src => { dst with score := src.score, kind := src.kind }
  | none => dst

/-- The snapshot that `updateStrategies` takes of a `rows` by `cols` field. -/
def snapOf {α : Type} (A : Arith α) (field : Field α) (rows cols : Nat) : Field α :=
  mapCells (snapCell field) (createField A rows cols)

/-- The body of the inner loop of the second loop nest of `updateStrategies`;
`f` is the snapshot. -/
def stratBody {α : Type} (A : Arith α) (f field : Field α) (i j : Nat) :
    Except Fault (Field α) := do
  let c ← cellAt field i j
  let field ← setCell field i j { c with pre_kind := c.kind }
  let k ← decide A f i j
  let c ← cellAt field i j
  setCell field i j { c with kind := k }

/-- The cell that the strategy phase leaves at `(i, j)`. -/
def newKind {α : Type} (A : Arith α) (field : Field α) (rows cols : Nat) (i j : Nat)
    (c : Cell α) : Cell α :=
  { c with pre_kind := c.kind, kind := best A (snapOf A field rows cols) rows cols i j }

/-- Every cell of the field has a kind that satisfies `P`. -/
def KindsIn {α : Type} (P : String → Prop) (field : Field α) : Prop :=
  ∀ i j c, cell? field i j = some c → P c.kind

/-- The field that one step of `evolve` returns on a `rows` by `cols` field. -/
def stepOf {α : Type} (A : Arith α) (field : Field α) (rows cols : Nat) (b : α) : Field α :=
  mapCells (newKind A (mapCells (newScore A field rows cols b) field) rows cols)
    (mapCells (newScore A field rows cols b) field)

end AnyNum

/-! ## Loops -/

/-- A loop whose every iteration returns normally, moving a known sequence of
states one step on, returns the last state of the sequence. -/
theorem foldlM_range_chain {σ : Type} (f : σ → Nat → Except Fault σ) (s : Nat → σ) (n : Nat)
    (h : ∀ k, k < n → f (s k) k = .ok (s (k + 1))) :
    (List.range n).foldlM f (s 0) = .ok (s n) := by
  induction n with
  | zero => rfl
  | succ n ih =>
    have h1 := ih (fun k hk => h k (Nat.lt_succ_of_lt hk))
    have h2 := h n (Nat.lt_succ_self n)
    rw [List.range_succ, List.foldlM_append, h1]
    show (do let a ← Except.ok (s n); List.foldlM f a [n]) = _
    simp only [List.foldlM_cons, List.foldlM_nil]
    show (f (s n) n >>= pure) = _
    rw [h2]
    rfl

/-- A loop whose body always returns normally is a pure fold. -/
theorem foldlM_ok {σ α : Type} (h : σ → α → σ) (l : List α) (a : σ) :
    l.foldlM (fun acc x => (Except.ok (h acc x) : Except Fault σ)) a = .ok (l.foldl h a) := by
  induction l generalizing a with
  | nil => rfl
  | cons x l ih =>
    simp only [List.foldlM_cons, List.foldl_cons]
    exact ih (h a x)

/-! ## Reading and writing cells -/

theorem index_natCast {α : Type} (s : List α) (k : Nat) :
    index s (k : Int) = orFault s[k]? := by
  simp [index]

theorem index_neg {α : Type} (s : List α) (k : Int) (hk : k < 0) :
    index s k = .error .indexOutOfRange := by
  simp [index, hk]

theorem cellAt_natCast (field : Field) (i j : Nat) :
    cellAt field (i : Int) (j : Int) = orFault (cell? field i j) := by
  unfold cellAt cell?
  rw [index_natCast]
  cases h : field[i]? with
  | none => rfl
  | some r =>
    show index r (j : Int) = _
    rw [index_natCast]
    rfl

theorem cellAt_of_cell? (field : Field) (i j : Nat) (c : Cell) (h : cell? field i j = some c) :
    cellAt field (i : Int) (j : Int) = .ok c := by
  rw [cellAt_natCast, h]
  rfl

theorem Rect.cell?_isSome {field : Field} {rows cols : Nat} (h : Rect field rows cols)
    {i j : Nat} (hi : i < rows) (hj : j < cols) : ∃ c, cell? field i j = some c := by
  obtain ⟨hl, hr⟩ := h
  have hi2 : i < field.length := by omega
  have hrow : field[i]? = some field[i] := List.getElem?_eq_getElem hi2
  have hlen : (field[i]).length = cols := hr _ (List.getElem_mem hi2)
  have hj2 : j < (field[i]).length := by omega
  refine ⟨(field[i])[j], ?_⟩
  simp [cell?, hrow, List.getElem?_eq_getElem hj2]

theorem Rect.cell?_eq_none {field : Field} {rows cols : Nat} (h : Rect field rows cols)
    {i j : Nat} (hij : ¬ (i < rows ∧ j < cols)) : cell? field i j = none := by
  obtain ⟨hl, hr⟩ := h
  unfold cell?
  cases hrow : field[i]? with
  | none => rfl
  | some r =>
    have hi2 : i < field.length := by
      rcases Nat.lt_or_ge i field.length with h1 | h1
      · exact h1
      · rw [List.getElem?_eq_none h1] at hrow
        cases hrow
    have hmem : r ∈ field := List.getElem?_mem hrow
    have hlen := hr r hmem
    show r[j]? = none
    apply List.getElem?_eq_none
    omega

/-- On a rectangular field `inField` is the bounds test of its comment. -/
theorem Rect.inField_eq {field : Field} {rows cols : Nat} (h : Rect field rows cols)
    (x y : Int) :
    inField field x y
      = Decidable.decide (0 ≤ x ∧ x < (rows : Int) ∧ 0 ≤ y ∧ y < (cols : Int)) := by
  obtain ⟨hl, hr⟩ := h
  cases field with
  | nil =>
    simp at hl
    subst hl
    simp [inField]
    intro h1 h2
    omega
  | cons r rest =>
    have hlen : r.length = cols := hr r (by simp)
    simp only [inField, hlen, hl]
    simp [Bool.decide_and, Bool.and_assoc]

/-! ## Whole-field updates -/

theorem cell?_mapCells (g : Nat → Nat → Cell → Cell) (field : Field) (i j : Nat) :
    cell? (mapCells g field) i j = (cell? field i j).map (g i j) := by
  unfold cell? mapCells
  rw [List.getElem?_mapIdx]
  cases field[i]? with
  | none => rfl
  | some r =>
    show (r.mapIdx fun j c => g i j c)[j]? = Option.map (g i j) r[j]?
    rw [List.getElem?_mapIdx]

theorem Rect.mapCells {field : Field} {rows cols : Nat} (h : Rect field rows cols)
    (g : Nat → Nat → Cell → Cell) : Rect (mapCells g field) rows cols := by
  obtain ⟨hl, hr⟩ := h
  refine ⟨by simp [Spatial.mapCells, hl], ?_⟩
  intro r hmem
  obtain ⟨n, hn⟩ := List.mem_iff_getElem?.mp hmem
  unfold Spatial.mapCells at hn
  rw [List.getElem?_mapIdx] at hn
  cases hrow : field[n]? with
  | none => rw [hrow] at hn; cases hn
  | some r0 =>
    rw [hrow] at hn
    have hn2 : (r0.mapIdx fun j c => g n j c) = r := Option.some.inj hn
    rw [← hn2, List.length_mapIdx]
    exact hr r0 (List.getElem?_mem hrow)

/-- Two rectangular fields of the same size with the same cells are equal. -/
theorem field_ext {f f' : Field} {rows cols : Nat} (h : Rect f rows cols)
    (h' : Rect f' rows cols)
    (hc : ∀ i j, i < rows → j < cols → cell? f i j = cell? f' i j) : f = f' := by
  obtain ⟨hl, hr⟩ := h
  obtain ⟨hl', hr'⟩ := h'
  apply List.ext_getElem (by omega)
  intro i h1 h2
  have e1 : (f[i]).length = cols := hr _ (List.getElem_mem h1)
  have e2 : (f'[i]).length = cols := hr' _ (List.getElem_mem h2)
  apply List.ext_getElem (by omega)
  intro j h3 h4
  have := hc i j (by omega) (by omega)
  simp only [cell?, List.getElem?_eq_getElem h1, List.getElem?_eq_getElem h2,
    Option.some_bind, List.getElem?_eq_getElem h3, List.getElem?_eq_getElem h4,
    Option.some.injEq] at this
  exact this

/-- A write inside a rectangular field returns normally and changes that cell only. -/
theorem setCell_ok {field : Field} {rows cols : Nat} (h : Rect field rows cols)
    {i j : Nat} (hi : i < rows) (hj : j < cols) (c : Cell) :
    ∃ f', setCell field i j c = .ok f' ∧ Rect f' rows cols ∧
      ∀ i' j', cell? f' i' j' = if i' = i ∧ j' = j then some c else cell? field i' j' := by
  obtain ⟨hl, hr⟩ := h
  have hi2 : i < field.length := by omega
  have hrow : field[i]? = some field[i] := List.getElem?_eq_getElem hi2
  have hlen : (field[i]).length = cols := hr _ (List.getElem_mem hi2)
  refine ⟨field.set i ((field[i]).set j c), ?_, ⟨by simp [hl], ?_⟩, ?_⟩
  · simp [setCell, hrow, hlen, hj]
  · intro r hmem
    rcases List.mem_or_eq_of_mem_set hmem with h1 | h1
    · exact hr r h1
    · rw [h1, List.length_set]
      exact hlen
  · intro i' j'
    unfold cell?
    rw [List.getElem?_set]
    by_cases e : i = i'
    · subst e
      simp only [hi2, if_true, true_and, Option.some_bind, hrow]
      rw [List.getElem?_set]
      by_cases e2 : j = j'
      · subst e2
        simp [hlen, hj]
      · have e3 : ¬ j' = j := fun x => e2 x.symm
        simp [e2, e3]
    · have e3 : ¬ i' = i := fun x => e x.symm
      simp [e, e3]

theorem cell?_stage (g : Nat → Nat → Cell → Cell) (i j : Nat) (field : Field) (i' j' : Nat) :
    cell? (stage g i j field) i' j'
      = (cell? field i' j').map
          (fun c => if i' < i ∨ (i' = i ∧ j' < j) then g i' j' c else c) := by
  unfold stage
  rw [cell?_mapCells]

theorem Rect.stage {field : Field} {rows cols : Nat} (h : Rect field rows cols)
    (g : Nat → Nat → Cell → Cell) (i j : Nat) : Rect (stage g i j field) rows cols :=
  h.mapCells _

theorem stage_zero {field : Field} {rows cols : Nat} (h : Rect field rows cols)
    (g : Nat → Nat → Cell → Cell) : stage g 0 0 field = field := by
  apply field_ext (h.stage g 0 0) h
  intro i' j' _ _
  rw [cell?_stage]
  cases cell? field i' j' <;> simp

theorem stage_row_end {field : Field} {rows cols : Nat} (h : Rect field rows cols)
    (g : Nat → Nat → Cell → Cell) (i : Nat) :
    stage g i cols field = stage g (i + 1) 0 field := by
  apply field_ext (h.stage g i cols) (h.stage g (i + 1) 0)
  intro i' j' _ hj
  rw [cell?_stage, cell?_stage]
  have e : (i' < i ∨ (i' = i ∧ j' < cols)) ↔ (i' < i + 1 ∨ (i' = i + 1 ∧ j' < 0)) := by
    constructor
    · intro h1; left; omega
    · intro h1
      rcases h1 with h1 | h1
      · rcases Nat.lt_or_ge i' i with h2 | h2
        · left; exact h2
        · right; exact ⟨by omega, hj⟩
      · omega
  simp only [e]

theorem stage_full {field : Field} {rows cols : Nat} (h : Rect field rows cols)
    (g : Nat → Nat → Cell → Cell) : stage g rows 0 field = mapCells g field := by
  apply field_ext (h.stage g rows 0) (h.mapCells g)
  intro i' j' hi _
  rw [cell?_stage, cell?_mapCells]
  have e : (i' < rows ∨ (i' = rows ∧ j' < 0)) := Or.inl hi
  simp only [e, if_true]

/-- A field that differs from a stage of the sweep only by the rewritten cell
at the sweep position is the next stage. -/
theorem eq_stage_succ {field f' : Field} {rows cols : Nat} (h : Rect field rows cols)
    (g : Nat → Nat → Cell → Cell) {i j : Nat} (c0 : Cell)
    (hc : cell? field i j = some c0) (h2 : Rect f' rows cols)
    (h3 : ∀ i' j', cell? f' i' j'
      = if i' = i ∧ j' = j then some (g i j c0) else cell? (stage g i j field) i' j') :
    f' = stage g i (j + 1) field := by
  apply field_ext h2 (h.stage g i (j + 1))
  intro i' j' _ _
  rw [h3, cell?_stage, cell?_stage]
  by_cases e : i' = i ∧ j' = j
  · obtain ⟨e1, e2⟩ := e
    subst e1 e2
    simp [hc]
  · rw [if_neg e]
    congr 1
    funext c
    have e4 : (i' < i ∨ (i' = i ∧ j' < j)) ↔ (i' < i ∨ (i' = i ∧ j' < j + 1)) := by
      constructor
      · intro h4
        rcases h4 with h4 | h4
        · left; exact h4
        · right; exact ⟨h4.1, by omega⟩
      · intro h4
        rcases h4 with h4 | h4
        · left; exact h4
        · right
          refine ⟨h4.1, ?_⟩
          have : j' ≠ j := fun x => e ⟨h4.1, x⟩
          omega
    simp only [e4]

/-- Writing the rewritten cell at the sweep position moves the sweep one cell on. -/
theorem setCell_stage {field : Field} {rows cols : Nat} (h : Rect field rows cols)
    (g : Nat → Nat → Cell → Cell) {i j : Nat} (hi : i < rows) (hj : j < cols) (c0 : Cell)
    (hc : cell? field i j = some c0) :
    setCell (stage g i j field) i j (g i j c0) = .ok (stage g i (j + 1) field) := by
  obtain ⟨f', h1, h2, h3⟩ := setCell_ok (h.stage g i j) hi hj (g i j c0)
  rw [h1, eq_stage_succ h g c0 hc h2 h3]

/-- A row-major sweep whose body, at each position, performs the rewrite
`g` of that cell, returns the field with every cell rewritten by `g`. -/
theorem sweep_eq_mapCells {field : Field} {rows cols : Nat} (h : Rect field rows cols)
    (body : Field → Nat → Nat → Except Fault Field) (g : Nat → Nat → Cell → Cell)
    (hbody : ∀ i j, i < rows → j < cols →
      body (stage g i j field) i j = .ok (stage g i (j + 1) field)) :
    (List.range rows).foldlM (fun f i =>
        (List.range cols).foldlM (fun f j => body f i j) f) field
      = .ok (mapCells g field) := by
  have key := foldlM_range_chain
    (fun f i => (List.range cols).foldlM (fun f j => body f i j) f)
    (fun i => stage g i 0 field) rows (fun i hi => by
      show (List.range cols).foldlM (fun f j => body f i j) (stage g i 0 field)
        = .ok (stage g (i + 1) 0 field)
      rw [← stage_row_end h]
      exact foldlM_range_chain (fun f j => body f i j) (fun j => stage g i j field) cols
        (fun j hj => hbody i j hi hj))
  simp only [stage_zero h, stage_full h] at key
  exact key

/-! ## The score phase -/

theorem gameBetween_ok {me them : String} (b : ℚ) (h1 : me = "C" ∨ me = "D")
    (h2 : them = "C" ∨ them = "D") : gameBetween me them b = .ok (reward me them b) := by
  rcases h1 with h1 | h1 <;> rcases h2 with h2 | h2 <;> subst h1 <;> subst h2 <;>
    simp [gameBetween, reward]

theorem AllCD.of_cell? {field : Field} (h : AllCD field) {i j : Nat} {c : Cell}
    (hc : cell? field i j = some c) : c.kind = "C" ∨ c.kind = "D" := by
  unfold cell? at hc
  cases hrow : field[i]? with
  | none => rw [hrow] at hc; cases hc
  | some r =>
    rw [hrow] at hc
    exact h r (List.getElem?_mem hrow) c (List.getElem?_mem hc)

theorem kindAt_of_cell? {field : Field} {i j : Nat} {c : Cell}
    (hc : cell? field i j = some c) : kindAt field (i : Int) (j : Int) = c.kind := by
  simp [kindAt, cellAt_of_cell? field i j c hc]

theorem scoreAt_of_cell? {field : Field} {i j : Nat} {c : Cell}
    (hc : cell? field i j = some c) : scoreAt field (i : Int) (j : Int) = c.score := by
  simp [scoreAt, cellAt_of_cell? field i j c hc]

theorem Icc_three (i : Int) : Finset.Icc (i - 1) (i + 1) = {i - 1, i, i + 1} := by
  ext x
  simp only [Finset.mem_Icc, Finset.mem_insert, Finset.mem_singleton]
  omega

theorem sum_Icc_three (t : Int → ℚ) (i : Int) :
    ∑ x ∈ Finset.Icc (i - 1) (i + 1), t x = t (i - 1) + t i + t (i + 1) := by
  rw [Icc_three, Finset.sum_insert, Finset.sum_insert, Finset.sum_singleton]
  · ring
  all_goals (simp only [Finset.mem_insert, Finset.mem_singleton]; omega)

theorem blockSum_eq (t : Int → Int → ℚ) (i j : Int) :
    blockSum t i j
      = t (i - 1) (j - 1) + t (i - 1) j + t (i - 1) (j + 1)
        + (t i (j - 1) + t i j + t i (j + 1))
        + (t (i + 1) (j - 1) + t (i + 1) j + t (i + 1) (j + 1)) := by
  unfold blockSum
  rw [sum_Icc_three]
  simp only [sum_Icc_three]

theorem game_eq_fold (field : Field) (i j : Int) (b : ℚ) :
    game field i j b
      = (span i).foldlM (fun res x =>
          (span j).foldlM (fun res y => gameBody field i j b res x y) res) 0 := rfl

theorem gameBody_eq {field : Field} {rows cols : Nat} (h : Rect field rows cols)
    (hcd : AllCD field) {i j : Nat} (hi : i < rows) (hj : j < cols) (b res : ℚ) (x y : Int) :
    gameBody field i j b res x y = .ok (res + term field rows cols i j b x y) := by
  unfold gameBody term
  rw [h.inField_eq]
  by_cases hb : 0 ≤ x ∧ x < (rows : Int) ∧ 0 ≤ y ∧ y < (cols : Int)
  · obtain ⟨hx0, hx1, hy0, hy1⟩ := hb
    obtain ⟨x', rfl⟩ := Int.eq_ofNat_of_zero_le hx0
    obtain ⟨y', rfl⟩ := Int.eq_ofNat_of_zero_le hy0
    obtain ⟨c, hc⟩ := h.cell?_isSome hi hj
    obtain ⟨d, hd⟩ := h.cell?_isSome (i := x') (j := y') (by omega) (by omega)
    have hb2 : 0 ≤ (x' : Int) ∧ (x' : Int) < (rows : Int) ∧ 0 ≤ (y' : Int) ∧ (y' : Int) < (cols : Int) :=
      ⟨hx0, hx1, hy0, hy1⟩
    simp only [hb2, and_self, decide_True, if_true]
    rw [cellAt_of_cell? field i j c hc, cellAt_of_cell? field x' y' d hd,
      kindAt_of_cell? hc, kindAt_of_cell? hd]
    show (gameBetween c.kind d.kind b >>= fun r => pure (res + r)) = _
    rw [gameBetween_ok b (hcd.of_cell? hc) (hcd.of_cell? hd)]
    rfl
  · simp only [hb, decide_False, if_false]
    simp
    rfl

/-- On a rectangular field of `"C"` and `"D"` cells, `game` at a cell of the
field returns the sum of the rewards over the part of the 3 by 3 block that
lies in the field. -/
theorem game_eq {field : Field} {rows cols : Nat} (h : Rect field rows cols)
    (hcd : AllCD field) {i j : Nat} (hi : i < rows) (hj : j < cols) (b : ℚ) :
    game field i j b = .ok (blockSum (term field rows cols i j b) i j) := by
  rw [game_eq_fold]
  have e1 : ∀ x : Int, (fun res y => gameBody field i j b res x y)
      = (fun res y => (Except.ok (res + term field rows cols i j b x y) : Except Fault ℚ)) := by
    intro x
    funext res y
    exact gameBody_eq h hcd hi hj b res x y
  simp only [e1, foldlM_ok]
  rw [blockSum_eq]
  simp only [span, List.foldl_cons, List.foldl_nil]
  congr 1
  ring

theorem cellAt_eq (field : Field) (x y : Int) :
    cellAt field x y
      = if 0 ≤ x ∧ 0 ≤ y then orFault (cell? field x.toNat y.toNat)
        else .error .indexOutOfRange := by
  by_cases hx : 0 ≤ x
  · obtain ⟨x', rfl⟩ := Int.eq_ofNat_of_zero_le hx
    by_cases hy : 0 ≤ y
    · obtain ⟨y', rfl⟩ := Int.eq_ofNat_of_zero_le hy
      simp [cellAt_natCast]
    · have hy2 : y < 0 := by omega
      simp only [hy, and_false, if_false]
      unfold cellAt
      rw [index_natCast]
      cases field[x']? with
      | none => rfl
      | some r => exact index_neg r y hy2
  · have hx2 : x < 0 := by omega
    simp only [hx, false_and, if_false]
    unfold cellAt
    rw [index_neg field x hx2]
    rfl

theorem allCD_iff_cell? (field : Field) :
    AllCD field ↔ ∀ i j c, cell? field i j = some c → c.kind = "C" ∨ c.kind = "D" := by
  constructor
  · intro h i j c hc
    exact h.of_cell? hc
  · intro h r hr c hc
    obtain ⟨i, hi⟩ := List.mem_iff_getElem?.mp hr
    obtain ⟨j, hj⟩ := List.mem_iff_getElem?.mp hc
    apply h i j c
    simp [cell?, hi, hj]

theorem kindAt_mapCells (g : Nat → Nat → Cell → Cell) (hg : ∀ i j c, (g i j c).kind = c.kind)
    (field : Field) (x y : Int) : kindAt (mapCells g field) x y = kindAt field x y := by
  unfold kindAt
  rw [cellAt_eq, cellAt_eq]
  by_cases hb : 0 ≤ x ∧ 0 ≤ y
  · simp only [hb, and_self, if_true]
    rw [cell?_mapCells]
    cases cell? field x.toNat y.toNat with
    | none => rfl
    | some c => exact hg _ _ c
  · simp only [hb, if_false]

theorem AllCD.keep_kinds {field : Field} (h : AllCD field) (g : Nat → Nat → Cell → Cell)
    (hg : ∀ i j c, (g i j c).kind = c.kind) : AllCD (mapCells g field) := by
  rw [allCD_iff_cell?] at h ⊢
  intro i j c hc
  rw [cell?_mapCells] at hc
  cases hc0 : cell? field i j with
  | none => rw [hc0] at hc; cases hc
  | some c0 =>
    rw [hc0] at hc
    have e : g i j c0 = c := Option.some.inj hc
    rw [← e, hg]
    exact h i j c0 hc0

theorem term_mapCells (g : Nat → Nat → Cell → Cell) (hg : ∀ i j c, (g i j c).kind = c.kind)
    (field : Field) (rows cols : Nat) (i j : Int) (b : ℚ) :
    term (mapCells g field) rows cols i j b = term field rows cols i j b := by
  funext x y
  unfold term
  rw [kindAt_mapCells g hg, kindAt_mapCells g hg]

theorem Rect.lenRow0 {field : Field} {rows cols : Nat} (h : Rect field rows cols)
    (hrows : 0 < rows) : lenRow0 field = .ok cols := by
  obtain ⟨hl, hr⟩ := h
  cases field with
  | nil => simp at hl; omega
  | cons r rest =>
    have : r.length = cols := hr r (by simp)
    simp [Spatial.lenRow0, this]

theorem updateScores_eq_fold (field : Field) (b : ℚ) :
    updateScores field b
      = (lenRow0 field >>= fun col =>
          (List.range field.length).foldlM (fun f i =>
            (List.range col).foldlM (fun f j => scoreBody b f i j) f) field) := rfl

theorem ok_bind {α β : Type} (a : α) (f : α → Except Fault β) :
    (Except.ok a >>= f) = f a := rfl

/-- The score phase in closed form: the in-place sweep returns the field in
which every cell has its block sum as score and is otherwise unchanged. -/
theorem updateScores_eq {field : Field} {rows cols : Nat} (h : Rect field rows cols)
    (hrows : 0 < rows) (hcd : AllCD field) (b : ℚ) :
    updateScores field b = .ok (mapCells (newScore field rows cols b) field) := by
  rw [updateScores_eq_fold, h.lenRow0 hrows, h.1, ok_bind]
  apply sweep_eq_mapCells h (scoreBody b)
  intro i j hi hj
  obtain ⟨c0, hc0⟩ := h.cell?_isSome hi hj
  have hkind : ∀ i' j' c, (if i' < i ∨ (i' = i ∧ j' < j) then newScore field rows cols b i' j' c
      else c).kind = c.kind := by
    intro i' j' c
    split <;> rfl
  have hg : game (stage (newScore field rows cols b) i j field) i j b
      = .ok (blockSum (term field rows cols i j b) i j) := by
    rw [game_eq (h.stage _ i j) (hcd.keep_kinds _ hkind) hi hj]
    unfold stage
    rw [term_mapCells _ hkind]
  have hc : cellAt (stage (newScore field rows cols b) i j field) i j = .ok c0 := by
    apply cellAt_of_cell?
    rw [cell?_stage, hc0]
    simp
  unfold scoreBody
  rw [hg, ok_bind, hc, ok_bind]
  exact setCell_stage h (newScore field rows cols b) hi hj c0 hc0

/-! ## The decision rule -/

theorem decide_eq_fold (field : Field) (i j : Int) :
    decide field i j
      = (cellAt field i j >>= fun own =>
          (span i).foldlM (fun acc x =>
            (span j).foldlM (fun acc y => decideBody field acc x y) acc) (own.kind, own.score)
          >>= fun best => pure best.1) := rfl

theorem decideBody_eq {field : Field} {rows cols : Nat} (h : Rect field rows cols)
    (acc : String × ℚ) (x y : Int) :
    decideBody field acc x y = .ok (pick field rows cols acc (x, y)) := by
  unfold decideBody pick InGrid
  rw [h.inField_eq]
  by_cases hb : 0 ≤ x ∧ x < (rows : Int) ∧ 0 ≤ y ∧ y < (cols : Int)
  · obtain ⟨hx0, hx1, hy0, hy1⟩ := hb
    obtain ⟨x', rfl⟩ := Int.eq_ofNat_of_zero_le hx0
    obtain ⟨y', rfl⟩ := Int.eq_ofNat_of_zero_le hy0
    obtain ⟨d, hd⟩ := h.cell?_isSome (i := x') (j := y') (by omega) (by omega)
    have hb2 : 0 ≤ (x' : Int) ∧ (x' : Int) < (rows : Int) ∧ 0 ≤ (y' : Int)
        ∧ (y' : Int) < (cols : Int) := ⟨hx0, hx1, hy0, hy1⟩
    simp only [hb2, and_self, decide_True, if_true, true_and]
    rw [cellAt_of_cell? field x' y' d hd, kindAt_of_cell? hd, scoreAt_of_cell? hd, ok_bind]
    rfl
  · simp only [hb, decide_False, if_false, false_and]
    simp
    rfl

/-- On a rectangular field, `decide` at a cell of the field returns the result
of the scan of the 3 by 3 block, started from the cell itself. -/
theorem decide_eq {field : Field} {rows cols : Nat} (h : Rect field rows cols)
    {i j : Nat} (hi : i < rows) (hj : j < cols) :
    decide field i j = .ok (best field rows cols i j) := by
  obtain ⟨c, hc⟩ := h.cell?_isSome hi hj
  rw [decide_eq_fold, cellAt_of_cell? field i j c hc, ok_bind]
  have e1 : ∀ x : Int, (fun acc y => decideBody field acc x y)
      = (fun acc y => (Except.ok (pick field rows cols acc (x, y)) :
          Except Fault (String × ℚ))) := by
    intro x
    funext acc y
    exact decideBody_eq h acc x y
  simp only [e1, foldlM_ok, ok_bind]
  unfold best block
  rw [kindAt_of_cell? hc, scoreAt_of_cell? hc]
  simp only [span, List.foldl_cons, List.foldl_nil]
  rfl

theorem scan_keep (field : Field) (rows cols : Nat) (l : List (Int × Int)) (init : String × ℚ)
    (h : ∀ p ∈ l, InGrid rows cols p → scoreAt field p.1 p.2 ≤ init.2) :
    l.foldl (pick field rows cols) init = init := by
  induction l with
  | nil => rfl
  | cons a t ih =>
    have ha : pick field rows cols init a = init := by
      unfold pick
      rw [if_neg]
      intro hh
      have := h a (by simp) hh.1
      exact absurd hh.2 (not_lt.mpr this)
    rw [List.foldl_cons, ha]
    exact ih (fun p hp => h p (List.mem_cons_of_mem a hp))

/-- The scan ends on the first cell that has the greatest score, when some
cell of the grid in the scanned list beats the starting score. -/
theorem scan_first_max (field : Field) (rows cols : Nat) (l : List (Int × Int))
    (init : String × ℚ)
    (h : ∃ p ∈ l, InGrid rows cols p ∧ init.2 < scoreAt field p.1 p.2) :
    ∃ pre p post, l = pre ++ p :: post ∧ InGrid rows cols p ∧
      l.foldl (pick field rows cols) init = (kindAt field p.1 p.2, scoreAt field p.1 p.2) ∧
      init.2 < scoreAt field p.1 p.2 ∧
      (∀ q ∈ pre, InGrid rows cols q → scoreAt field q.1 q.2 < scoreAt field p.1 p.2) ∧
      (∀ q ∈ post, InGrid rows cols q → scoreAt field q.1 q.2 ≤ scoreAt field p.1 p.2) := by
  induction l generalizing init with
  | nil =>
    obtain ⟨p, hp, _⟩ := h
    cases hp
  | cons a t ih =>
    by_cases ha : InGrid rows cols a ∧ init.2 < scoreAt field a.1 a.2
    · have hpick : pick field rows cols init a = (kindAt field a.1 a.2, scoreAt field a.1 a.2) := by
        unfold pick
        rw [if_pos ha]
      by_cases hrest : ∃ p ∈ t, InGrid rows cols p ∧ scoreAt field a.1 a.2 < scoreAt field p.1 p.2
      · obtain ⟨pre, p, post, e, hg, hf, hlt, hpre, hpost⟩ :=
          ih (kindAt field a.1 a.2, scoreAt field a.1 a.2) hrest
        refine ⟨a :: pre, p, post, by rw [e]; rfl, hg, ?_, lt_trans ha.2 hlt, ?_, hpost⟩
        · rw [List.foldl_cons, hpick]
          exact hf
        · intro q hq hqg
          rcases List.mem_cons.mp hq with hq | hq
          · rw [hq]
            exact hlt
          · exact hpre q hq hqg
      · refine ⟨[], a, t, rfl, ha.1, ?_, ha.2, ?_, ?_⟩
        · rw [List.foldl_cons, hpick]
          apply scan_keep
          intro p hp hpg
          exact not_lt.mp (fun hh => hrest ⟨p, hp, hpg, hh⟩)
        · intro q hq
          cases hq
        · intro q hq hqg
          exact not_lt.mp (fun hh => hrest ⟨q, hq, hqg, hh⟩)
    · have hpick : pick field rows cols init a = init := by
        unfold pick
        rw [if_neg ha]
      have hrest : ∃ p ∈ t, InGrid rows cols p ∧ init.2 < scoreAt field p.1 p.2 := by
        obtain ⟨p, hp, hpg, hlt⟩ := h
        rcases List.mem_cons.mp hp with hp | hp
        · rw [hp] at hpg hlt
          exact absurd ⟨hpg, hlt⟩ ha
        · exact ⟨p, hp, hpg, hlt⟩
      obtain ⟨pre, p, post, e, hg, hf, hlt, hpre, hpost⟩ := ih init hrest
      refine ⟨a :: pre, p, post, by rw [e]; rfl, hg, ?_, hlt, ?_, hpost⟩
      · rw [List.foldl_cons, hpick]
        exact hf
      · intro q hq hqg
        rcases List.mem_cons.mp hq with hq | hq
        · rw [hq]
          have : scoreAt field a.1 a.2 ≤ init.2 := not_lt.mp (fun hh => ha ⟨hq ▸ hqg, hh⟩)
          exact lt_of_le_of_lt this hlt
        · exact hpre q hq hqg

theorem mem_block (i j : Int) (p : Int × Int) :
    p ∈ block i j ↔ (i - 1 ≤ p.1 ∧ p.1 ≤ i + 1 ∧ j - 1 ≤ p.2 ∧ p.2 ≤ j + 1) := by
  obtain ⟨x, y⟩ := p
  simp only [block, List.mem_cons, Prod.mk.injEq, List.mem_nil_iff, or_false]
  omega

theorem block_pairwise (i j : Int) : (block i j).Pairwise Before := by
  unfold block
  simp [Before]
  omega

/-! ## The strategy phase -/

theorem snapshot_eq_fold (field : Field) (row col : Nat) :
    snapshot field row col
      = (List.range row).foldlM (fun f i =>
          (List.range col).foldlM (fun f j => snapBody field f i j) f)
          (createField row col) := rfl

theorem rect_createField (rows cols : Nat) : Rect (createField rows cols) rows cols := by
  refine ⟨by simp [createField], ?_⟩
  intro r hr
  rw [createField, List.mem_replicate] at hr
  rw [hr.2, List.length_replicate]

theorem cell?_createField {rows cols i j : Nat} (hi : i < rows) (hj : j < cols) :
    cell? (createField rows cols) i j = some Cell.zero := by
  simp [cell?, createField, List.getElem?_replicate, hi, hj]

/-- The snapshot of a rectangular field in closed form. -/
theorem snapshot_eq {field : Field} {rows cols : Nat} (h : Rect field rows cols) :
    snapshot field rows cols = .ok (mapCells (snapCell field) (createField rows cols)) := by
  rw [snapshot_eq_fold]
  apply sweep_eq_mapCells (rect_createField rows cols) (snapBody field)
  intro i j hi hj
  obtain ⟨src, hsrc⟩ := h.cell?_isSome hi hj
  have hdst : cellAt (stage (snapCell field) i j (createField rows cols)) i j = .ok Cell.zero := by
    apply cellAt_of_cell?
    rw [cell?_stage, cell?_createField hi hj]
    simp
  unfold snapBody
  rw [cellAt_of_cell? field i j src hsrc, ok_bind, hdst, ok_bind]
  have e : ({ Cell.zero with score := src.score, kind := src.kind } : Cell)
      = snapCell field i j Cell.zero := by
    simp [snapCell, hsrc]
  rw [e]
  exact setCell_stage (rect_createField rows cols) (snapCell field) hi hj Cell.zero
    (cell?_createField hi hj)

theorem cell?_snapshot {field : Field} {rows cols : Nat} (h : Rect field rows cols)
    (i j : Nat) :
    cell? (mapCells (snapCell field) (createField rows cols)) i j
      = (cell? field i j).map (fun c => { kind := c.kind, score := c.score, pre_kind := "" }) := by
  rw [cell?_mapCells]
  by_cases hb : i < rows ∧ j < cols
  · obtain ⟨c, hc⟩ := h.cell?_isSome hb.1 hb.2
    rw [cell?_createField hb.1 hb.2, hc]
    simp [snapCell, hc, Cell.zero]
  · rw [(rect_createField rows cols).cell?_eq_none hb, h.cell?_eq_none hb]
    rfl

theorem kindAt_congr {f g : Field}
    (h : ∀ i j, (cell? f i j).map Cell.kind = (cell? g i j).map Cell.kind) (x y : Int) :
    kindAt f x y = kindAt g x y := by
  unfold kindAt
  rw [cellAt_eq, cellAt_eq]
  by_cases hb : 0 ≤ x ∧ 0 ≤ y
  · simp only [hb, and_self, if_true]
    have := h x.toNat y.toNat
    cases h1 : cell? f x.toNat y.toNat <;> cases h2 : cell? g x.toNat y.toNat <;>
      rw [h1, h2] at this <;> simp [orFault] at this ⊢
    exact this
  · simp only [hb, if_false]

theorem scoreAt_congr {f g : Field}
    (h : ∀ i j, (cell? f i j).map Cell.score = (cell? g i j).map Cell.score) (x y : Int) :
    scoreAt f x y = scoreAt g x y := by
  unfold scoreAt
  rw [cellAt_eq, cellAt_eq]
  by_cases hb : 0 ≤ x ∧ 0 ≤ y
  · simp only [hb, and_self, if_true]
    have := h x.toNat y.toNat
    cases h1 : cell? f x.toNat y.toNat <;> cases h2 : cell? g x.toNat y.toNat <;>
      rw [h1, h2] at this <;> simp [orFault] at this ⊢
    exact this
  · simp only [hb, if_false]

theorem best_congr {f g : Field} (rows cols : Nat)
    (hk : ∀ x y, kindAt f x y = kindAt g x y) (hs : ∀ x y, scoreAt f x y = scoreAt g x y)
    (i j : Int) : best f rows cols i j = best g rows cols i j := by
  have e : pick f rows cols = pick g rows cols := by
    funext acc p
    unfold pick
    rw [hk, hs]
  unfold best
  rw [e, hk, hs]

/-- The snapshot gives `decide` the same answer as the field it was taken from. -/
theorem best_snapshot {field : Field} {rows cols : Nat} (h : Rect field rows cols)
    (i j : Int) :
    best (mapCells (snapCell field) (createField rows cols)) rows cols i j
      = best field rows cols i j := by
  apply best_congr
  · apply kindAt_congr
    intro i' j'
    rw [cell?_snapshot h]
    cases cell? field i' j' <;> rfl
  · apply scoreAt_congr
    intro i' j'
    rw [cell?_snapshot h]
    cases cell? field i' j' <;> rfl

theorem updateStrategies_eq_fold (field : Field) :
    updateStrategies field
      = (lenRow0 field >>= fun col =>
          snapshot field field.length col >>= fun f =>
            (List.range field.length).foldlM (fun fld i =>
              (List.range col).foldlM (fun fld j => stratBody f fld i j) fld) field) := rfl

/-- The strategy phase in closed form: the in-place sweep returns the field in
which every cell has saved its kind and taken the kind decided on the field
as it was before the phase. -/
theorem updateStrategies_eq {field : Field} {rows cols : Nat} (h : Rect field rows cols)
    (hrows : 0 < rows) :
    updateStrategies field = .ok (mapCells (newKind field rows cols) field) := by
  rw [updateStrategies_eq_fold, h.lenRow0 hrows, h.1, ok_bind, snapshot_eq h, ok_bind]
  apply sweep_eq_mapCells h (stratBody _)
  intro i j hi hj
  obtain ⟨c0, hc0⟩ := h.cell?_isSome hi hj
  have hF := h.stage (newKind field rows cols) i j
  have hc : cellAt (stage (newKind field rows cols) i j field) i j = .ok c0 := by
    apply cellAt_of_cell?
    rw [cell?_stage, hc0]
    simp
  obtain ⟨f1, e1, r1, q1⟩ := setCell_ok hF hi hj { c0 with pre_kind := c0.kind }
  have hc1 : cellAt f1 i j = .ok { c0 with pre_kind := c0.kind } := by
    apply cellAt_of_cell?
    rw [q1]
    simp
  obtain ⟨f2, e2, r2, q2⟩ := setCell_ok r1 hi hj
    { ({ c0 with pre_kind := c0.kind } : Cell) with kind := best field rows cols i j }
  unfold stratBody
  rw [hc, ok_bind, e1, ok_bind, decide_eq ((rect_createField rows cols).mapCells _) hi hj,
    ok_bind, hc1, ok_bind, best_snapshot h, e2]
  congr 1
  apply eq_stage_succ h (newKind field rows cols) c0 hc0 r2
  intro i' j'
  rw [q2, q1]
  by_cases e : i' = i ∧ j' = j
  · rw [if_pos e, if_pos e]
    rfl
  · rw [if_neg e, if_neg e, if_neg e]

/-! ## Kinds are imitated, never invented -/

theorem Rect.at_inGrid {field : Field} {rows cols : Nat} (h : Rect field rows cols)
    {p : Int × Int} (hp : InGrid rows cols p) :
    ∃ c, cell? field p.1.toNat p.2.toNat = some c ∧ kindAt field p.1 p.2 = c.kind
      ∧ scoreAt field p.1 p.2 = c.score := by
  obtain ⟨x, y⟩ := p
  obtain ⟨hx0, hx1, hy0, hy1⟩ := hp
  simp only at hx0 hx1 hy0 hy1
  obtain ⟨x', rfl⟩ := Int.eq_ofNat_of_zero_le hx0
  obtain ⟨y', rfl⟩ := Int.eq_ofNat_of_zero_le hy0
  obtain ⟨c, hc⟩ := h.cell?_isSome (i := x') (j := y') (by omega) (by omega)
  exact ⟨c, by simpa using hc, kindAt_of_cell? hc, scoreAt_of_cell? hc⟩

/-- The kind that `decide` returns is the kind of a cell of the field. -/
theorem best_kind {field : Field} {rows cols : Nat} (h : Rect field rows cols)
    {i j : Nat} (hi : i < rows) (hj : j < cols) (P : String → Prop) (hP : KindsIn P field) :
    P (best field rows cols i j) := by
  unfold best
  by_cases hex : ∃ p ∈ block (i : Int) (j : Int), InGrid rows cols p
      ∧ scoreAt field i j < scoreAt field p.1 p.2
  · obtain ⟨pre, p, post, _, hg, hf, _, _, _⟩ :=
      scan_first_max field rows cols (block i j) (kindAt field i j, scoreAt field i j) hex
    rw [hf]
    obtain ⟨c, hc, hk, _⟩ := h.at_inGrid hg
    show P (kindAt field p.1 p.2)
    rw [hk]
    exact hP _ _ c hc
  · rw [scan_keep]
    · obtain ⟨c, hc⟩ := h.cell?_isSome hi hj
      show P (kindAt field i j)
      rw [kindAt_of_cell? hc]
      exact hP _ _ c hc
    · intro p hp hpg
      exact not_lt.mp (fun hh => hex ⟨p, hp, hpg, hh⟩)

theorem kindsIn_mapCells {P : String → Prop} {field : Field}
    (g : Nat → Nat → Cell → Cell)
    (hg : ∀ i j c, cell? field i j = some c → P (g i j c).kind) :
    KindsIn P (mapCells g field) := by
  intro i j c hc
  rw [cell?_mapCells] at hc
  cases hc0 : cell? field i j with
  | none => rw [hc0] at hc; cases hc
  | some c0 =>
    rw [hc0] at hc
    have e : g i j c0 = c := Option.some.inj hc
    rw [← e]
    exact hg i j c0 hc0

theorem KindsIn.allCD {P : String → Prop} {field : Field} (h : KindsIn P field)
    (hP : ∀ k, P k → k = "C" ∨ k = "D") : AllCD field := by
  rw [allCD_iff_cell?]
  intro i j c hc
  exact hP _ (h i j c hc)

theorem cell?_lt {field : Field} {rows cols : Nat} (h : Rect field rows cols)
    {i j : Nat} {c : Cell} (hc : cell? field i j = some c) : i < rows ∧ j < cols := by
  by_contra hn
  rw [h.cell?_eq_none hn] at hc
  cases hc

/-- One step of `evolve` on a rectangular field of `"C"` and `"D"` cells, in
closed form. -/
theorem step_eq {field : Field} {rows cols : Nat} (h : Rect field rows cols)
    (hrows : 0 < rows) (hcd : AllCD field) (b : ℚ) :
    step field b
      = .ok (mapCells (newKind (mapCells (newScore field rows cols b) field) rows cols)
          (mapCells (newScore field rows cols b) field)) := by
  unfold step
  rw [updateScores_eq h hrows hcd, ok_bind, updateStrategies_eq (h.mapCells _) hrows]

/-- A step keeps the field rectangular and keeps every property of kinds that
holds for all cells and allows only `"C"` and `"D"`. -/
theorem step_inv {field : Field} {rows cols : Nat} (h : Rect field rows cols)
    (hrows : 0 < rows) (P : String → Prop) (hP : ∀ k, P k → k = "C" ∨ k = "D")
    (hk : KindsIn P field) (b : ℚ) :
    ∃ f', step field b = .ok f' ∧ Rect f' rows cols ∧ KindsIn P f' := by
  refine ⟨_, step_eq h hrows (hk.allCD hP) b, (h.mapCells _).mapCells _, ?_⟩
  have h1 : KindsIn P (mapCells (newScore field rows cols b) field) :=
    kindsIn_mapCells _ (fun i j c hc => hk i j c hc)
  apply kindsIn_mapCells
  intro i j c hc
  obtain ⟨hi, hj⟩ := cell?_lt (h.mapCells _) hc
  exact best_kind (h.mapCells _) hi hj P h1

theorem evolveLoop_succ (field : Field) (n : Nat) (b : ℚ) :
    evolveLoop field (n + 1) b = (evolveLoop field n b >>= fun f => step f b) := by
  unfold evolveLoop
  rw [List.range_succ, List.foldlM_append]
  congr 1
  funext f
  simp only [List.foldlM_cons, List.foldlM_nil]
  show (step f b >>= pure) = step f b
  cases step f b <;> rfl

theorem evolve_natCast (field : Field) (n : Nat) (b : ℚ) :
    evolve field (n : Int) b = evolveLoop field n b := by
  simp [evolve]

theorem evolve_natCast_succ (field : Field) (n : Nat) (b : ℚ) :
    evolve field ((n : Int) + 1) b = evolveLoop field (n + 1) b := by
  have e : ((n : Int) + 1).toNat = n + 1 := by omega
  simp [evolve, e]

/-- The loop of `evolve` returns normally and keeps the invariants of `step_inv`. -/
theorem evolveLoop_inv {field : Field} {rows cols : Nat} (h : Rect field rows cols)
    (hrows : 0 < rows) (P : String → Prop) (hP : ∀ k, P k → k = "C" ∨ k = "D")
    (hk : KindsIn P field) (b : ℚ) (n : Nat) :
    ∃ f', evolveLoop field n b = .ok f' ∧ Rect f' rows cols ∧ KindsIn P f' := by
  induction n with
  | zero => exact ⟨field, rfl, h, hk⟩
  | succ n ih =>
    obtain ⟨fn, e, hr, hkn⟩ := ih
    obtain ⟨f', e', hr', hk'⟩ := step_inv hr hrows P hP hkn b
    exact ⟨f', by rw [evolveLoop_succ, e, ok_bind, e'], hr', hk'⟩

/-! ## The claims about the score phase -/

theorem cell?_kinds (field : Field) (i j : Nat) :
    ((kinds field)[i]?).bind (fun r => r[j]?) = (cell? field i j).map Cell.kind := by
  unfold kinds cell?
  rw [List.getElem?_map]
  cases field[i]? with
  | none => rfl
  | some r =>
    show (r.map Cell.kind)[j]? = Option.map Cell.kind r[j]?
    rw [List.getElem?_map]

theorem rect_of_kinds_eq {f g : Field} {rows cols : Nat} (h : Rect f rows cols)
    (e : kinds g = kinds f) : Rect g rows cols := by
  obtain ⟨hl, hr⟩ := h
  have el : g.length = f.length := by
    have := congrArg List.length e
    simpa [kinds] using this
  refine ⟨by omega, ?_⟩
  intro r hmem
  obtain ⟨n, hn⟩ := List.mem_iff_getElem?.mp hmem
  have e2 : (kinds g)[n]? = (kinds f)[n]? := by rw [e]
  unfold kinds at e2
  rw [List.getElem?_map, List.getElem?_map, hn] at e2
  cases hf : f[n]? with
  | none => rw [hf] at e2; cases e2
  | some r' =>
    rw [hf] at e2
    have e3 : r.map Cell.kind = r'.map Cell.kind := Option.some.inj e2
    have e4 := congrArg List.length e3
    simp only [List.length_map] at e4
    rw [e4]
    exact hr r' (List.getElem?_mem hf)

theorem cell?_kind_of_kinds_eq {f g : Field} (e : kinds g = kinds f) (i j : Nat) :
    (cell? g i j).map Cell.kind = (cell? f i j).map Cell.kind := by
  rw [← cell?_kinds, ← cell?_kinds, e]

/-- Claim C1. On a rectangular field with at least one row whose kinds are all
`"C"` or `"D"`, `updateScores` returns a field in which the score of every cell
`(i, j)` is the sum, over the coordinates `(x, y)` of the 3 by 3 block around
`(i, j)` that lie in the field, of the reward `gameBetween` returns for the
kind at `(i, j)` against the kind at `(x, y)`, the kinds being those of the
field before the call; every such `gameBetween` call returns normally; and a
field with the same kinds but other scores and `pre_kind`s gets the same
scores. -/
theorem updateScores_score_is_block_sum (field : Field) (rows cols : Nat) (b : ℚ)
    (hrect : Rect field rows cols) (hrows : 0 < rows) (hcd : AllCD field) :
    ∃ field', updateScores field b = .ok field' ∧
      (∀ i j : Nat, i < rows → j < cols →
        ∃ c, cellAt field' i j = .ok c ∧
          c.score = ∑ x ∈ Finset.Icc ((i : Int) - 1) (i + 1),
            ∑ y ∈ Finset.Icc ((j : Int) - 1) (j + 1),
              if 0 ≤ x ∧ x < (rows : Int) ∧ 0 ≤ y ∧ y < (cols : Int) then
                reward (kindAt field i j) (kindAt field x y) b
              else 0) ∧
      (∀ i j : Nat, i < rows → j < cols → ∀ x y : Nat, x < rows → y < cols →
        gameBetween (kindAt field i j) (kindAt field x y) b
          = .ok (reward (kindAt field i j) (kindAt field x y) b)) ∧
      (∀ g : Field, kinds g = kinds field →
        ∃ g', updateScores g b = .ok g' ∧ scores g' = scores field') := by
  have hscore : ∀ (g : Field), kinds g = kinds field → ∀ i j : Nat, i < rows → j < cols →
      ∃ c0, cell? g i j = some c0 ∧
        cell? (mapCells (newScore g rows cols b) g) i j
          = some { c0 with score := blockSum (term field rows cols i j b) i j } := by
    intro g e i j hi hj
    obtain ⟨c0, hc0⟩ := (rect_of_kinds_eq hrect e).cell?_isSome hi hj
    refine ⟨c0, hc0, ?_⟩
    rw [cell?_mapCells, hc0]
    have et : term g rows cols i j b = term field rows cols i j b := by
      funext x y
      unfold term
      rw [kindAt_congr (cell?_kind_of_kinds_eq e), kindAt_congr (cell?_kind_of_kinds_eq e)]
    simp [newScore, et]
  have hcdg : ∀ (g : Field), kinds g = kinds field → AllCD g := by
    intro g e
    rw [allCD_iff_cell?]
    intro i j c hc
    have e2 := cell?_kind_of_kinds_eq e i j
    rw [hc] at e2
    cases hf : cell? field i j with
    | none => rw [hf] at e2; cases e2
    | some c' =>
      rw [hf] at e2
      have e3 : c.kind = c'.kind := Option.some.inj e2
      rw [e3]
      exact hcd.of_cell? hf
  refine ⟨_, updateScores_eq hrect hrows hcd b, ?_, ?_, ?_⟩
  · intro i j hi hj
    obtain ⟨c0, _, hc⟩ := hscore field rfl i j hi hj
    exact ⟨_, cellAt_of_cell? _ i j _ hc, rfl⟩
  · intro i j hi hj x y hx hy
    obtain ⟨c, hc⟩ := hrect.cell?_isSome hi hj
    obtain ⟨d, hd⟩ := hrect.cell?_isSome hx hy
    rw [kindAt_of_cell? hc, kindAt_of_cell? hd]
    exact gameBetween_ok b (hcd.of_cell? hc) (hcd.of_cell? hd)
  · intro g e
    have hg := rect_of_kinds_eq hrect e
    refine ⟨_, updateScores_eq hg hrows (hcdg g e) b, ?_⟩
    have key : ∀ (g : Field), kinds g = kinds field →
        scores (mapCells (newScore g rows cols b) g)
          = (List.range rows).map (fun (i : Nat) => (List.range cols).map (fun (j : Nat) =>
              blockSum (term field rows cols i j b) i j)) := by
      intro g e
      have hg := rect_of_kinds_eq hrect e
      have hm := hg.mapCells (newScore g rows cols b)
      apply List.ext_getElem
      · simp [scores, hm.1]
      · intro i h1 h2
        have hi : i < rows := by simpa using h2
        have hi' : i < (mapCells (newScore g rows cols b) g).length := by rw [hm.1]; exact hi
        have hrl := hm.2 _ (List.getElem_mem hi')
        simp only [scores, List.getElem_map, List.getElem_range]
        apply List.ext_getElem
        · simp [hrl]
        · intro j h3 h4
          have hj : j < cols := by simpa using h4
          obtain ⟨c0, _, hc⟩ := hscore g e i j hi hj
          have hj' : j < ((mapCells (newScore g rows cols b) g)[i]).length := by
            rw [hrl]; exact hj
          simp only [cell?, List.getElem?_eq_getElem hi', Option.some_bind,
            List.getElem?_eq_getElem hj', Option.some.injEq] at hc
          simp only [List.getElem_map, List.getElem_range, hc]
    rw [key g e, key field rfl]

/-- Claim C1 at the field `CD / DC` with `b = 3`. -/
theorem updateScores_score_is_block_sum_witness :
    Rect grid2 2 2 ∧ 0 < 2 ∧ AllCD grid2 ∧
    ∃ field', updateScores grid2 3 = .ok field' ∧
      (∀ i j : Nat, i < 2 → j < 2 →
        ∃ c, cellAt field' i j = .ok c ∧
          c.score = ∑ x ∈ Finset.Icc ((i : Int) - 1) (i + 1),
            ∑ y ∈ Finset.Icc ((j : Int) - 1) (j + 1),
              if 0 ≤ x ∧ x < ((2 : Nat) : Int) ∧ 0 ≤ y ∧ y < ((2 : Nat) : Int) then
                reward (kindAt grid2 i j) (kindAt grid2 x y) 3
              else 0) ∧
      (∀ i j : Nat, i < 2 → j < 2 → ∀ x y : Nat, x < 2 → y < 2 →
        gameBetween (kindAt grid2 i j) (kindAt grid2 x y) 3
          = .ok (reward (kindAt grid2 i j) (kindAt grid2 x y) 3)) ∧
      (∀ g : Field, kinds g = kinds grid2 →
        ∃ g', updateScores g 3 = .ok g' ∧ scores g' = scores field') :=
  ⟨by decide, by decide, by decide,
    updateScores_score_is_block_sum grid2 2 2 3 (by decide) (by decide) (by decide)⟩

/-! ## The payoff table -/

/-- Claim C4. For every `b`, `gameBetween` follows the payoff table: `C` against
`C` gets 1, `C` against `D` gets 0, `D` against `C` gets `b`, `D` against `D`
gets 0. -/
theorem gameBetween_table (b : ℚ) :
    gameBetween "C" "C" b = .ok 1 ∧ gameBetween "C" "D" b = .ok 0 ∧
      gameBetween "D" "C" b = .ok b ∧ gameBetween "D" "D" b = .ok 0 := by
  refine ⟨?_, ?_, ?_, ?_⟩ <;> simp [gameBetween]

/-! ## The step loop -/

/-- Claim C5. On a rectangular field with at least one row whose kinds are all
`"C"` or `"D"`, `evolve` with zero steps returns the field, and for every
`n >= 0` the run with `n + 1` steps returns what `updateStrategies` returns on
what `updateScores` returns on the result of the run with `n` steps; all three
return normally. -/
theorem evolve_iterates_step (field : Field) (rows cols : Nat) (b : ℚ)
    (hrect : Rect field rows cols) (hrows : 0 < rows) (hcd : AllCD field) :
    evolve field 0 b = .ok field ∧
      ∀ n : Nat, ∃ fn f1 f2, evolve field (n : Int) b = .ok fn ∧
        updateScores fn b = .ok f1 ∧ updateStrategies f1 = .ok f2 ∧
        evolve field ((n : Int) + 1) b = .ok f2 := by
  refine ⟨rfl, ?_⟩
  intro n
  have hk : KindsIn (fun k => k = "C" ∨ k = "D") field :=
    (allCD_iff_cell? field).mp hcd
  obtain ⟨fn, e, hr, hkn⟩ :=
    evolveLoop_inv hrect hrows (fun k => k = "C" ∨ k = "D") (fun _ h => h) hk b n
  have hcdn : AllCD fn := (allCD_iff_cell? fn).mpr hkn
  refine ⟨fn, _, _, by rw [evolve_natCast, e], updateScores_eq hr hrows hcdn b,
    updateStrategies_eq (hr.mapCells _) hrows, ?_⟩
  rw [evolve_natCast_succ, evolveLoop_succ, e, ok_bind, step_eq hr hrows hcdn]

/-- Claim C5 at the field `CD / DC` with `b = 3`. -/
theorem evolve_iterates_step_witness :
    Rect grid2 2 2 ∧ 0 < 2 ∧ AllCD grid2 ∧
    (evolve grid2 0 3 = .ok grid2 ∧
      ∀ n : Nat, ∃ fn f1 f2, evolve grid2 (n : Int) 3 = .ok fn ∧
        updateScores fn 3 = .ok f1 ∧ updateStrategies f1 = .ok f2 ∧
        evolve grid2 ((n : Int) + 1) 3 = .ok f2) :=
  ⟨by decide, by decide, by decide,
    evolve_iterates_step grid2 2 2 3 (by decide) (by decide) (by decide)⟩

/-- Claim C6. For every field and every `b`, `evolve` with zero steps returns
the field itself: kinds, scores and `pre_kind`s are those of the input. -/
theorem evolve_zero (field : Field) (b : ℚ) : evolve field 0 b = .ok field := rfl

/-! ## The concrete scenario -/

/-- Claim C7. For the field `CD / DC`, `b = 3` and one step, `evolve` returns a
field in which all four cells have kind `"D"`. -/
theorem evolve_grid2_all_defect :
    (evolve grid2 1 3).map kinds = .ok [["D", "D"], ["D", "D"]] := by
  decide!

/-- Claim C8 as stated fails: for the field `CD / DC` and `b = 3` the scores
after `updateScores` are not 1, 6, 6, 1. -/
theorem updateScores_grid2_not_1661 :
    ¬ ((updateScores grid2 3).map scores = .ok [[1, 6], [6, 1]]) := by
  decide!

/-- Claim C8, amended. For the field `CD / DC` and `b = 3` the scores after
`updateScores` are cell(0,0) = 2, cell(0,1) = 6, cell(1,0) = 6 and
cell(1,1) = 2: each `C` cell also plays the other `C` cell, its diagonal
neighbour. -/
theorem updateScores_grid2_scores :
    (updateScores grid2 3).map scores = .ok [[2, 6], [6, 2]] := by
  decide!

/-! ## Fixed points -/

theorem kindsIn_iff_mem (P : String → Prop) (field : Field) :
    KindsIn P field ↔ ∀ r ∈ field, ∀ c ∈ r, P c.kind := by
  constructor
  · intro h r hr c hc
    obtain ⟨i, hi⟩ := List.mem_iff_getElem?.mp hr
    obtain ⟨j, hj⟩ := List.mem_iff_getElem?.mp hc
    apply h i j c
    simp [cell?, hi, hj]
  · intro h i j c hc
    unfold cell? at hc
    cases hrow : field[i]? with
    | none => rw [hrow] at hc; cases hc
    | some r =>
      rw [hrow] at hc
      exact h r (List.getElem?_mem hrow) c (List.getElem?_mem hc)

theorem mem_cell? {field : Field} {r : List Cell} {c : Cell} (hr : r ∈ field) (hc : c ∈ r) :
    ∃ i j, cell? field i j = some c := by
  obtain ⟨i, hi⟩ := List.mem_iff_getElem?.mp hr
  obtain ⟨j, hj⟩ := List.mem_iff_getElem?.mp hc
  exact ⟨i, j, by simp [cell?, hi, hj]⟩

/-- Claim C9. On a rectangular field with at least one row whose cells all have
kind `"C"`, for every `b` and every number of steps, `evolve` returns a field
of the same size whose cells all have kind `"C"`. -/
theorem evolve_all_cooperate (field : Field) (rows cols : Nat) (b : ℚ) (nsteps : Int)
    (hrect : Rect field rows cols) (hrows : 0 < rows)
    (hall : ∀ r ∈ field, ∀ c ∈ r, c.kind = "C") :
    ∃ f', evolve field nsteps b = .ok f' ∧ Rect f' rows cols ∧
      ∀ r ∈ f', ∀ c ∈ r, c.kind = "C" := by
  obtain ⟨f', e, hr, hk⟩ := evolveLoop_inv hrect hrows (fun k => k = "C")
    (fun _ h => Or.inl h) ((kindsIn_iff_mem _ field).mpr hall) b nsteps.toNat
  exact ⟨f', e, hr, (kindsIn_iff_mem _ f').mp hk⟩

/-- Claim C9 at the 2 by 2 field of `"C"` cells, `b = 3`, five steps. -/
theorem evolve_all_cooperate_witness :
    Rect (ofKinds [["C", "C"], ["C", "C"]]) 2 2 ∧ 0 < 2 ∧
    (∀ r ∈ ofKinds [["C", "C"], ["C", "C"]], ∀ c ∈ r, c.kind = "C") ∧
    ∃ f', evolve (ofKinds [["C", "C"], ["C", "C"]]) 5 3 = .ok f' ∧ Rect f' 2 2 ∧
      ∀ r ∈ f', ∀ c ∈ r, c.kind = "C" :=
  ⟨by decide, by decide, by decide,
    evolve_all_cooperate (ofKinds [["C", "C"], ["C", "C"]]) 2 2 3 5
      (by decide) (by decide) (by decide)⟩

theorem blockSum_zero (t : Int → Int → ℚ) (i j : Int) (ht : ∀ x y, t x y = 0) :
    blockSum t i j = 0 := by
  unfold blockSum
  simp [ht]

theorem reward_defect_defect (b : ℚ) : reward "D" "D" b = 0 := by
  simp [reward, gameBetween]

/-- On a field of `"D"` cells every game of a cell of the field pays 0. -/
theorem term_all_defect {field : Field} {rows cols : Nat} (h : Rect field rows cols)
    (hk : KindsIn (fun k => k = "D") field) {i j : Nat} (hi : i < rows) (hj : j < cols)
    (b : ℚ) (x y : Int) : term field rows cols i j b x y = 0 := by
  unfold term
  split
  · rename_i hb
    obtain ⟨c, hc⟩ := h.cell?_isSome hi hj
    obtain ⟨d, hd, hkd, _⟩ := h.at_inGrid (p := (x, y)) hb
    rw [kindAt_of_cell? hc, hkd, hk _ _ c hc, hk _ _ d hd]
    exact reward_defect_defect b
  · rfl

/-- Claim C10. On a rectangular field with at least one row whose cells all
have kind `"D"`, for every `b` and every number of steps `nsteps >= 1`,
`evolve` returns a field of the same size whose cells all have kind `"D"` and
score 0. -/
theorem evolve_all_defect (field : Field) (rows cols : Nat) (b : ℚ) (nsteps : Int)
    (hrect : Rect field rows cols) (hrows : 0 < rows)
    (hall : ∀ r ∈ field, ∀ c ∈ r, c.kind = "D") (hn : 1 ≤ nsteps) :
    ∃ f', evolve field nsteps b = .ok f' ∧ Rect f' rows cols ∧
      ∀ r ∈ f', ∀ c ∈ r, c.kind = "D" ∧ c.score = 0 := by
  obtain ⟨m, hm⟩ : ∃ m : Nat, nsteps.toNat = m + 1 := ⟨nsteps.toNat - 1, by omega⟩
  have hP : ∀ k : String, k = "D" → k = "C" ∨ k = "D" := fun _ h => Or.inr h
  obtain ⟨fm, e, hr, hk⟩ := evolveLoop_inv hrect hrows (fun k => k = "D") hP
    ((kindsIn_iff_mem _ field).mpr hall) b m
  obtain ⟨f', e', hr', hk'⟩ := step_inv hr hrows (fun k => k = "D") hP hk b
  refine ⟨f', ?_, hr', ?_⟩
  · unfold evolve
    rw [hm, evolveLoop_succ, e, ok_bind, e']
  · intro r hmem c hc
    obtain ⟨i, j, hij⟩ := mem_cell? hmem hc
    refine ⟨hk' i j c hij, ?_⟩
    have e2 := step_eq hr hrows (hk.allCD hP) b
    rw [e'] at e2
    have e3 : f' = _ := Except.ok.inj e2
    obtain ⟨hi, hj⟩ := cell?_lt hr' hij
    rw [e3, cell?_mapCells, cell?_mapCells] at hij
    obtain ⟨c0, hc0⟩ := hr.cell?_isSome hi hj
    rw [hc0] at hij
    have e4 : c = newKind (mapCells (newScore fm rows cols b) fm) rows cols i j
        (newScore fm rows cols b i j c0) := (Option.some.inj hij).symm
    rw [e4]
    show blockSum (term fm rows cols i j b) i j = 0
    exact blockSum_zero _ _ _ (term_all_defect hr hk hi hj b)

/-- Claim C10 at the 2 by 2 field of `"D"` cells, `b = 3`, five steps. -/
theorem evolve_all_defect_witness :
    Rect (ofKinds [["D", "D"], ["D", "D"]]) 2 2 ∧ 0 < 2 ∧
    (∀ r ∈ ofKinds [["D", "D"], ["D", "D"]], ∀ c ∈ r, c.kind = "D") ∧ (1 : Int) ≤ 5 ∧
    ∃ f', evolve (ofKinds [["D", "D"], ["D", "D"]]) 5 3 = .ok f' ∧ Rect f' 2 2 ∧
      ∀ r ∈ f', ∀ c ∈ r, c.kind = "D" ∧ c.score = 0 :=
  ⟨by decide, by decide, by decide, by decide,
    evolve_all_defect (ofKinds [["D", "D"], ["D", "D"]]) 2 2 3 5
      (by decide) (by decide) (by decide) (by decide)⟩

/-! ## The claim about the decision rule -/

theorem inNbhd_iff (rows cols : Nat) (i j x y : Int) :
    InNbhd rows cols i j x y ↔ (x, y) ∈ block i j ∧ InGrid rows cols (x, y) := by
  rw [mem_block]
  unfold InNbhd InGrid
  simp only
  constructor
  · rintro ⟨a, b, c, d, e, f, g, h⟩
    exact ⟨⟨a, b, c, d⟩, e, f, g, h⟩
  · rintro ⟨⟨a, b, c, d⟩, e, f, g, h⟩
    exact ⟨a, b, c, d, e, f, g, h⟩

/-- Claim C3. On a rectangular field, `decide` at a cell `(i, j)` of the field
returns normally. It returns the cell's own kind when no cell of the 3 by 3
block that lies in the field has a score strictly greater than the cell's own
score. Otherwise it returns the kind of a cell `(x, y)` of the block whose score
is the greatest of the block and strictly greater than the score of every
block cell scanned before it (earlier row, or same row and earlier column):
the first cell, in scan order, that has the maximum score. -/
theorem decide_first_maximum (field : Field) (rows cols : Nat)
    (hrect : Rect field rows cols) (i j : Nat) (hi : i < rows) (hj : j < cols) :
    ∃ k, decide field i j = .ok k ∧
      ((∀ x y : Int, InNbhd rows cols i j x y → scoreAt field x y ≤ scoreAt field i j) →
        k = kindAt field i j) ∧
      ((∃ x y : Int, InNbhd rows cols i j x y ∧ scoreAt field i j < scoreAt field x y) →
        ∃ x y : Int, InNbhd rows cols i j x y ∧ k = kindAt field x y ∧
          (∀ x' y' : Int, InNbhd rows cols i j x' y' →
            scoreAt field x' y' ≤ scoreAt field x y) ∧
          (∀ x' y' : Int, InNbhd rows cols i j x' y' → (x' < x ∨ (x' = x ∧ y' < y)) →
            scoreAt field x' y' < scoreAt field x y)) := by
  refine ⟨_, decide_eq hrect hi hj, ?_, ?_⟩
  · intro h
    unfold best
    rw [scan_keep]
    intro p hp hpg
    exact h p.1 p.2 ((inNbhd_iff rows cols i j p.1 p.2).mpr ⟨hp, hpg⟩)
  · rintro ⟨x0, y0, hnb, hlt⟩
    obtain ⟨hmem0, hg0⟩ := (inNbhd_iff rows cols i j x0 y0).mp hnb
    obtain ⟨pre, p, post, e, hg, hf, _, hpre, hpost⟩ :=
      scan_first_max field rows cols (block i j) (kindAt field i j, scoreAt field i j)
        ⟨(x0, y0), hmem0, hg0, hlt⟩
    have hpw := block_pairwise (i : Int) (j : Int)
    rw [e, List.pairwise_append] at hpw
    obtain ⟨_, hpw2, hpw3⟩ := hpw
    rw [List.pairwise_cons] at hpw2
    have hpmem : p ∈ block (i : Int) (j : Int) := by
      rw [e]
      simp
    refine ⟨p.1, p.2, (inNbhd_iff rows cols i j p.1 p.2).mpr ⟨hpmem, hg⟩, ?_, ?_, ?_⟩
    · unfold best
      rw [hf]
    · intro x' y' hq
      obtain ⟨hqm, hqg⟩ := (inNbhd_iff rows cols i j x' y').mp hq
      rw [e, List.mem_append, List.mem_cons] at hqm
      rcases hqm with h1 | h1 | h1
      · have h2 := hpre (x', y') h1 hqg
        exact le_of_lt h2
      · rw [← h1]
      · exact hpost (x', y') h1 hqg
    · intro x' y' hq hbefore
      obtain ⟨hqm, hqg⟩ := (inNbhd_iff rows cols i j x' y').mp hq
      rw [e, List.mem_append, List.mem_cons] at hqm
      rcases hqm with h1 | h1 | h1
      · exact hpre (x', y') h1 hqg
      · exfalso
        rw [← h1] at hbefore
        simp only at hbefore
        omega
      · exfalso
        have := hpw2.1 _ h1
        unfold Before at this
        simp only at this
        omega

/-- Claim C3 at cell `(0, 0)` of the field `CD / DC`. -/
theorem decide_first_maximum_witness :
    Rect grid2 2 2 ∧ (0 : Nat) < 2 ∧ (0 : Nat) < 2 ∧
    ∃ k, decide grid2 (0 : Nat) (0 : Nat) = .ok k ∧
      ((∀ x y : Int, InNbhd 2 2 (0 : Nat) (0 : Nat) x y →
          scoreAt grid2 x y ≤ scoreAt grid2 (0 : Nat) (0 : Nat)) →
        k = kindAt grid2 (0 : Nat) (0 : Nat)) ∧
      ((∃ x y : Int, InNbhd 2 2 (0 : Nat) (0 : Nat) x y ∧
          scoreAt grid2 (0 : Nat) (0 : Nat) < scoreAt grid2 x y) →
        ∃ x y : Int, InNbhd 2 2 (0 : Nat) (0 : Nat) x y ∧ k = kindAt grid2 x y ∧
          (∀ x' y' : Int, InNbhd 2 2 (0 : Nat) (0 : Nat) x' y' →
            scoreAt grid2 x' y' ≤ scoreAt grid2 x y) ∧
          (∀ x' y' : Int, InNbhd 2 2 (0 : Nat) (0 : Nat) x' y' →
            (x' < x ∨ (x' = x ∧ y' < y)) → scoreAt grid2 x' y' < scoreAt grid2 x y)) :=
  ⟨by decide, by decide, by decide,
    decide_first_maximum grid2 2 2 (by decide) 0 0 (by decide) (by decide)⟩

/-! ## The claim about the strategy phase -/

theorem mapM_ok {α β : Type} (f : α → Except Fault β) (g : α → β) (l : List α)
    (h : ∀ x ∈ l, f x = .ok (g x)) : l.mapM f = .ok (l.map g) := by
  induction l with
  | nil => rfl
  | cons a t ih =>
    rw [List.mapM_cons, h a (by simp), ih (fun x hx => h x (List.mem_cons_of_mem a hx))]
    rfl

theorem updateStrategiesSimultaneous_eq {field : Field} {rows cols : Nat}
    (h : Rect field rows cols) (hrows : 0 < rows) :
    updateStrategiesSimultaneous field
      = .ok ((List.range rows).map (fun i => (List.range cols).map (fun j =>
          simCell field rows cols i j))) := by
  unfold updateStrategiesSimultaneous
  rw [h.lenRow0 hrows, h.1]
  show (List.range rows).mapM _ = _
  apply mapM_ok
  intro i hi
  apply mapM_ok
  intro j hj
  rw [List.mem_range] at hi hj
  obtain ⟨c, hc⟩ := h.cell?_isSome hi hj
  rw [cellAt_of_cell? field i j c hc, ok_bind, decide_eq h hi hj, ok_bind]
  simp [simCell, hc, newKind]
  rfl

theorem table_eq_mapCells {field : Field} {rows cols : Nat} (h : Rect field rows cols) :
    (List.range rows).map (fun i => (List.range cols).map (fun j =>
        simCell field rows cols i j))
      = mapCells (newKind field rows cols) field := by
  have hr : Rect ((List.range rows).map (fun i => (List.range cols).map (fun j =>
      simCell field rows cols i j))) rows cols := by
    refine ⟨by simp, ?_⟩
    intro r hmem
    rw [List.mem_map] at hmem
    obtain ⟨i, _, e⟩ := hmem
    rw [← e]
    simp
  apply field_ext hr (h.mapCells _)
  intro i j hi hj
  obtain ⟨c, hc⟩ := h.cell?_isSome hi hj
  rw [cell?_mapCells, hc]
  have hs : simCell field rows cols i j = newKind field rows cols i j c := by
    simp [simCell, hc]
  simp [cell?, List.getElem?_map, List.getElem?_range, hi, hj, hs]

/-- Claim C2. On a rectangular field with at least one row, the in-place sweep
of `updateStrategies` returns exactly the field that the simultaneous,
double-buffered update returns, and in it the kind of every cell `(i, j)` is
what `decide` returns on the field as it was before the call. -/
theorem updateStrategies_is_simultaneous (field : Field) (rows cols : Nat)
    (hrect : Rect field rows cols) (hrows : 0 < rows) :
    ∃ field', updateStrategies field = .ok field' ∧
      updateStrategiesSimultaneous field = .ok field' ∧
      ∀ i j : Nat, i < rows → j < cols →
        ∃ c, cellAt field' i j = .ok c ∧ decide field i j = .ok c.kind := by
  refine ⟨_, updateStrategies_eq hrect hrows, ?_, ?_⟩
  · rw [updateStrategiesSimultaneous_eq hrect hrows, table_eq_mapCells hrect]
  · intro i j hi hj
    obtain ⟨c, hc⟩ := hrect.cell?_isSome hi hj
    refine ⟨newKind field rows cols i j c, ?_, decide_eq hrect hi hj⟩
    apply cellAt_of_cell?
    rw [cell?_mapCells, hc]
    rfl

/-- Claim C2 at the field `CD / DC`. -/
theorem updateStrategies_is_simultaneous_witness :
    Rect grid2 2 2 ∧ 0 < 2 ∧
    ∃ field', updateStrategies grid2 = .ok field' ∧
      updateStrategiesSimultaneous grid2 = .ok field' ∧
      ∀ i j : Nat, i < 2 → j < 2 →
        ∃ c, cellAt field' i j = .ok c ∧ decide grid2 i j = .ok c.kind :=
  ⟨by decide, by decide,
    updateStrategies_is_simultaneous grid2 2 2 (by decide) (by decide)⟩

/-! ## The score bound -/

theorem reward_bounds {me them : String} (b : ℚ) (hb : 0 < b) (h1 : me = "C" ∨ me = "D")
    (h2 : them = "C" ∨ them = "D") : 0 ≤ reward me them b ∧ reward me them b ≤ max 1 b := by
  rcases h1 with h1 | h1 <;> rcases h2 with h2 | h2 <;> subst h1 <;> subst h2 <;>
    simp [reward, gameBetween, le_of_lt hb]

theorem term_bounds {field : Field} {rows cols : Nat} (h : Rect field rows cols)
    (hcd : AllCD field) {i j : Nat} (hi : i < rows) (hj : j < cols) (b : ℚ) (hb : 0 < b)
    (x y : Int) :
    0 ≤ term field rows cols i j b x y ∧ term field rows cols i j b x y ≤ max 1 b := by
  unfold term
  split
  · rename_i hin
    obtain ⟨c, hc⟩ := h.cell?_isSome hi hj
    obtain ⟨d, hd, hkd, _⟩ := h.at_inGrid (p := (x, y)) hin
    rw [kindAt_of_cell? hc, hkd]
    exact reward_bounds b hb (hcd.of_cell? hc) (hcd.of_cell? hd)
  · exact ⟨le_refl 0, le_trans zero_le_one (le_max_left 1 b)⟩

/-- Claim C11. On a rectangular field with at least one row whose kinds are all
`"C"` or `"D"`, for every `b > 0`, the score `s` that `updateScores` gives to a
cell `(i, j)` whose block of 9 coordinates lies in the field (an interior
cell) satisfies `0 <= s <= 9 * max(1, b)`. -/
theorem updateScores_score_bounds (field : Field) (rows cols : Nat) (b : ℚ)
    (hrect : Rect field rows cols) (hrows : 0 < rows) (hcd : AllCD field) (hb : 0 < b) :
    ∃ field', updateScores field b = .ok field' ∧
      ∀ i j : Nat, 1 ≤ i → i + 1 < rows → 1 ≤ j → j + 1 < cols →
        ∃ c, cellAt field' i j = .ok c ∧ 0 ≤ c.score ∧ c.score ≤ 9 * max 1 b := by
  refine ⟨_, updateScores_eq hrect hrows hcd b, ?_⟩
  intro i j _ hi _ hj
  have hi' : i < rows := by omega
  have hj' : j < cols := by omega
  obtain ⟨c0, hc0⟩ := hrect.cell?_isSome hi' hj'
  refine ⟨newScore field rows cols b i j c0, ?_, ?_⟩
  · apply cellAt_of_cell?
    rw [cell?_mapCells, hc0]
    rfl
  · show 0 ≤ blockSum (term field rows cols i j b) i j
      ∧ blockSum (term field rows cols i j b) i j ≤ 9 * max 1 b
    rw [blockSum_eq]
    have t := term_bounds hrect hcd hi' hj' b hb
    have t1 := t ((i : Int) - 1) ((j : Int) - 1)
    have t2 := t ((i : Int) - 1) (j : Int)
    have t3 := t ((i : Int) - 1) ((j : Int) + 1)
    have t4 := t (i : Int) ((j : Int) - 1)
    have t5 := t (i : Int) (j : Int)
    have t6 := t (i : Int) ((j : Int) + 1)
    have t7 := t ((i : Int) + 1) ((j : Int) - 1)
    have t8 := t ((i : Int) + 1) (j : Int)
    have t9 := t ((i : Int) + 1) ((j : Int) + 1)
    constructor <;> linarith [t1.1, t1.2, t2.1, t2.2, t3.1, t3.2, t4.1, t4.2, t5.1, t5.2,
      t6.1, t6.2, t7.1, t7.2, t8.1, t8.2, t9.1, t9.2]

/-- Claim C11 at the centre cell of the 3 by 3 field of `"C"` cells, `b = 3`. -/
theorem updateScores_score_bounds_witness :
    Rect (ofKinds [["C", "C", "C"], ["C", "C", "C"], ["C", "C", "C"]]) 3 3 ∧ 0 < 3 ∧
    AllCD (ofKinds [["C", "C", "C"], ["C", "C", "C"], ["C", "C", "C"]]) ∧ (0 : ℚ) < 3 ∧
    ∃ field', updateScores (ofKinds [["C", "C", "C"], ["C", "C", "C"], ["C", "C", "C"]]) 3
        = .ok field' ∧
      ∀ i j : Nat, 1 ≤ i → i + 1 < 3 → 1 ≤ j → j + 1 < 3 →
        ∃ c, cellAt field' i j = .ok c ∧ 0 ≤ c.score ∧ c.score ≤ 9 * max 1 3 :=
  ⟨by decide, by decide, by decide, by norm_num,
    updateScores_score_bounds (ofKinds [["C", "C", "C"], ["C", "C", "C"], ["C", "C", "C"]])
      3 3 3 (by decide) (by decide) (by decide) (by norm_num)⟩

/-! ## The panic branch of the payoff rule -/

/-- Claim C15. `gameBetween` returns a reward exactly when both kinds are `"C"`
or `"D"`; on every other pair of strings it takes the panic branch. In
particular lower-case kinds and the empty string panic. -/
theorem gameBetween_returns_iff (me them : String) (b : ℚ) :
    ((∃ r, gameBetween me them b = .ok r) ↔
        ((me = "C" ∨ me = "D") ∧ (them = "C" ∨ them = "D"))) ∧
      (¬ ((me = "C" ∨ me = "D") ∧ (them = "C" ∨ them = "D")) →
        gameBetween me them b = .error .shouldntHappen) ∧
      gameBetween "c" "d" b = .error .shouldntHappen ∧
      gameBetween "C" "d" b = .error .shouldntHappen ∧
      gameBetween "" "" b = .error .shouldntHappen ∧
      gameBetween "C" "" b = .error .shouldntHappen := by
  have hbad : ¬ ((me = "C" ∨ me = "D") ∧ (them = "C" ∨ them = "D")) →
      gameBetween me them b = .error .shouldntHappen := by
    intro h
    unfold gameBetween
    rw [if_neg (fun x => h ⟨Or.inl x.1, Or.inl x.2⟩),
      if_neg (fun x => h ⟨Or.inl x.1, Or.inr x.2⟩),
      if_neg (fun x => h ⟨Or.inr x.1, Or.inl x.2⟩),
      if_neg (fun x => h ⟨Or.inr x.1, Or.inr x.2⟩)]
  refine ⟨⟨?_, ?_⟩, hbad, ?_, ?_, ?_, ?_⟩
  · rintro ⟨r, hr⟩
    by_contra hn
    rw [hbad hn] at hr
    cases hr
  · rintro ⟨h1, h2⟩
    exact ⟨_, gameBetween_ok b h1 h2⟩
  all_goals simp [gameBetween]

/-! ## What the phases leave unchanged -/

/-- A projection of cells that a rewrite keeps is the same on the rewritten field. -/
theorem map_mapCells {β : Type} (f : Cell → β) (g : Nat → Nat → Cell → Cell)
    (hg : ∀ i j c, f (g i j c) = f c) (field : Field) :
    (mapCells g field).map (List.map f) = field.map (List.map f) := by
  apply List.ext_getElem?
  intro i
  unfold mapCells
  rw [List.getElem?_map, List.getElem?_map, List.getElem?_mapIdx]
  cases field[i]? with
  | none => rfl
  | some r =>
    show some ((r.mapIdx fun j c => g i j c).map f) = some (r.map f)
    congr 1
    apply List.ext_getElem?
    intro j
    rw [List.getElem?_map, List.getElem?_map, List.getElem?_mapIdx]
    cases r[j]? with
    | none => rfl
    | some c => exact congrArg some (hg i j c)

theorem map_length_mapCells (g : Nat → Nat → Cell → Cell) (field : Field) :
    (mapCells g field).map List.length = field.map List.length := by
  apply List.ext_getElem?
  intro i
  unfold mapCells
  rw [List.getElem?_map, List.getElem?_map, List.getElem?_mapIdx]
  cases field[i]? with
  | none => rfl
  | some r =>
    show some (r.mapIdx fun j c => g i j c).length = some r.length
    rw [List.length_mapIdx]

/-- Claim C17. On a rectangular field with at least one row whose kinds are all
`"C"` or `"D"`, `updateScores` returns a field with the same kinds, the same
`pre_kind`s, the same number of rows and the same length of every row. -/
theorem updateScores_frame (field : Field) (rows cols : Nat) (b : ℚ)
    (hrect : Rect field rows cols) (hrows : 0 < rows) (hcd : AllCD field) :
    ∃ field', updateScores field b = .ok field' ∧ kinds field' = kinds field ∧
      preKinds field' = preKinds field ∧ field'.length = field.length ∧
      field'.map List.length = field.map List.length := by
  refine ⟨_, updateScores_eq hrect hrows hcd b, ?_, ?_, ?_, ?_⟩
  · exact map_mapCells Cell.kind (newScore field rows cols b) (fun _ _ _ => rfl) field
  · exact map_mapCells Cell.pre_kind (newScore field rows cols b) (fun _ _ _ => rfl) field
  · simp [mapCells]
  · exact map_length_mapCells _ field

/-- Claim C17 at the field `CD / DC` with `b = 3`. -/
theorem updateScores_frame_witness :
    Rect grid2 2 2 ∧ 0 < 2 ∧ AllCD grid2 ∧
    ∃ field', updateScores grid2 3 = .ok field' ∧ kinds field' = kinds grid2 ∧
      preKinds field' = preKinds grid2 ∧ field'.length = grid2.length ∧
      field'.map List.length = grid2.map List.length :=
  ⟨by decide, by decide, by decide,
    updateScores_frame grid2 2 2 3 (by decide) (by decide) (by decide)⟩

/-! ## Invariants of a run -/

/-- Claim C14. On a rectangular field with at least one row whose kinds are all
`"C"` or `"D"`, for every `b` and every number of steps, `evolve` returns a
field with as many rows as the input, every row as long as the rows of the
input. -/
theorem evolve_keeps_dimensions (field : Field) (rows cols : Nat) (b : ℚ) (nsteps : Int)
    (hrect : Rect field rows cols) (hrows : 0 < rows) (hcd : AllCD field) :
    ∃ f', evolve field nsteps b = .ok f' ∧ f'.length = field.length ∧
      (∀ r ∈ f', r.length = cols) ∧ f'.map List.length = field.map List.length := by
  obtain ⟨f', e, hr, _⟩ := evolveLoop_inv hrect hrows (fun k => k = "C" ∨ k = "D")
    (fun _ h => h) ((allCD_iff_cell? field).mp hcd) b nsteps.toNat
  refine ⟨f', e, by rw [hr.1, hrect.1], hr.2, ?_⟩
  apply List.ext_getElem
  · simp [hr.1, hrect.1]
  · intro i h1 h2
    simp only [List.getElem_map]
    rw [hr.2 _ (List.getElem_mem _), hrect.2 _ (List.getElem_mem _)]

/-- Claim C14 at the field `CD / DC`, `b = 3`, four steps. -/
theorem evolve_keeps_dimensions_witness :
    Rect grid2 2 2 ∧ 0 < 2 ∧ AllCD grid2 ∧
    ∃ f', evolve grid2 4 3 = .ok f' ∧ f'.length = grid2.length ∧
      (∀ r ∈ f', r.length = 2) ∧ f'.map List.length = grid2.map List.length :=
  ⟨by decide, by decide, by decide,
    evolve_keeps_dimensions grid2 2 2 3 4 (by decide) (by decide) (by decide)⟩

/-- Claim C13. On a rectangular field with at least one row whose kinds are all
`"C"` or `"D"`, for every `b`: the field that `evolve` returns has only kinds
`"C"` and `"D"`, for every number of steps; and in every step of the run the
field before the step, the field after its `updateScores` and the field after
its `updateStrategies` have only kinds `"C"` and `"D"`. -/
theorem evolve_keeps_kinds_valid (field : Field) (rows cols : Nat) (b : ℚ)
    (hrect : Rect field rows cols) (hrows : 0 < rows) (hcd : AllCD field) :
    (∀ nsteps : Int, ∃ f', evolve field nsteps b = .ok f' ∧ AllCD f') ∧
      ∀ n : Nat, ∃ fn f1 f2, evolve field (n : Int) b = .ok fn ∧ AllCD fn ∧
        updateScores fn b = .ok f1 ∧ AllCD f1 ∧
        updateStrategies f1 = .ok f2 ∧ AllCD f2 ∧
        evolve field ((n : Int) + 1) b = .ok f2 := by
  have hk : KindsIn (fun k => k = "C" ∨ k = "D") field := (allCD_iff_cell? field).mp hcd
  have inv := evolveLoop_inv hrect hrows (fun k => k = "C" ∨ k = "D") (fun _ h => h) hk b
  constructor
  · intro nsteps
    obtain ⟨f', e, _, hk'⟩ := inv nsteps.toNat
    exact ⟨f', e, (allCD_iff_cell? f').mpr hk'⟩
  · intro n
    obtain ⟨fn, e, hr, hkn⟩ := inv n
    obtain ⟨f2, e2, _, hk2⟩ := inv (n + 1)
    have hcdn : AllCD fn := (allCD_iff_cell? fn).mpr hkn
    have e3 : step fn b = .ok f2 := by
      rw [evolveLoop_succ, e, ok_bind] at e2
      exact e2
    rw [step_eq hr hrows hcdn] at e3
    refine ⟨fn, _, f2, by rw [evolve_natCast, e], hcdn, updateScores_eq hr hrows hcdn b,
      hcdn.keep_kinds _ (fun _ _ _ => rfl), ?_, (allCD_iff_cell? f2).mpr hk2, ?_⟩
    · rw [updateStrategies_eq (hr.mapCells _) hrows]
      exact e3
    · rw [evolve_natCast_succ, evolveLoop_succ, e, ok_bind, step_eq hr hrows hcdn]
      exact e3

/-- Claim C13 at the field `CD / DC` with `b = 3`. -/
theorem evolve_keeps_kinds_valid_witness :
    Rect grid2 2 2 ∧ 0 < 2 ∧ AllCD grid2 ∧
    ((∀ nsteps : Int, ∃ f', evolve grid2 nsteps 3 = .ok f' ∧ AllCD f') ∧
      ∀ n : Nat, ∃ fn f1 f2, evolve grid2 (n : Int) 3 = .ok fn ∧ AllCD fn ∧
        updateScores fn 3 = .ok f1 ∧ AllCD f1 ∧
        updateStrategies f1 = .ok f2 ∧ AllCD f2 ∧
        evolve grid2 ((n : Int) + 1) 3 = .ok f2) :=
  ⟨by decide, by decide, by decide,
    evolve_keeps_kinds_valid grid2 2 2 3 (by decide) (by decide) (by decide)⟩

/-! ## The state after a step -/

/-- The cell that a step leaves at `(i, j)`: its kind is decided on the scored
field, its score is the block sum over the kinds before the step, its
`pre_kind` is the kind before the step. -/
theorem cell?_step_result (field : Field) (rows cols : Nat) (b : ℚ) (i j : Nat) :
    cell? (mapCells (newKind (mapCells (newScore field rows cols b) field) rows cols)
        (mapCells (newScore field rows cols b) field)) i j
      = (cell? field i j).map (fun c =>
          { kind := best (mapCells (newScore field rows cols b) field) rows cols i j,
            score := blockSum (term field rows cols i j b) i j,
            pre_kind := c.kind }) := by
  rw [cell?_mapCells, cell?_mapCells]
  cases cell? field i j <;> rfl

/-- Claim C12. On a rectangular field with at least one row, `updateStrategies`
returns a field in which the `pre_kind` of every cell is the kind that cell
had before the call. Hence, when the kinds are all `"C"` or `"D"`, after
`n + 1` steps of `evolve` the `pre_kind` of every cell is the kind it had
after `n` steps. -/
theorem updateStrategies_saves_kind (field : Field) (rows cols : Nat)
    (hrect : Rect field rows cols) (hrows : 0 < rows) :
    (∃ f', updateStrategies field = .ok f' ∧
      ∀ i j : Nat, i < rows → j < cols →
        ∃ c c', cellAt field i j = .ok c ∧ cellAt f' i j = .ok c' ∧ c'.pre_kind = c.kind) ∧
    (AllCD field → ∀ (b : ℚ) (n : Nat),
      ∃ fn f', evolve field (n : Int) b = .ok fn ∧ evolve field ((n : Int) + 1) b = .ok f' ∧
        ∀ i j : Nat, i < rows → j < cols →
          ∃ c c', cellAt fn i j = .ok c ∧ cellAt f' i j = .ok c' ∧ c'.pre_kind = c.kind) := by
  constructor
  · refine ⟨_, updateStrategies_eq hrect hrows, ?_⟩
    intro i j hi hj
    obtain ⟨c, hc⟩ := hrect.cell?_isSome hi hj
    refine ⟨c, newKind field rows cols i j c, cellAt_of_cell? field i j c hc, ?_, rfl⟩
    apply cellAt_of_cell?
    rw [cell?_mapCells, hc]
    rfl
  · intro hcd b n
    obtain ⟨fn, e, hr, hkn⟩ := evolveLoop_inv hrect hrows (fun k => k = "C" ∨ k = "D")
      (fun _ h => h) ((allCD_iff_cell? field).mp hcd) b n
    have hcdn : AllCD fn := (allCD_iff_cell? fn).mpr hkn
    refine ⟨fn, (mapCells (newKind (mapCells (newScore fn rows cols b) fn) rows cols)
      (mapCells (newScore fn rows cols b) fn)),
      by rw [evolve_natCast, e], ?_, ?_⟩
    · rw [evolve_natCast_succ, evolveLoop_succ, e, ok_bind, step_eq hr hrows hcdn]
    · intro i j hi hj
      obtain ⟨c, hc⟩ := hr.cell?_isSome hi hj
      refine ⟨c, Cell.mk (best (mapCells (newScore fn rows cols b) fn) rows cols i j)
        (blockSum (term fn rows cols i j b) i j) c.kind,
        cellAt_of_cell? fn i j c hc, ?_, rfl⟩
      apply cellAt_of_cell?
      rw [cell?_step_result, hc]
      rfl

/-- Claim C12 at the field `CD / DC`. -/
theorem updateStrategies_saves_kind_witness :
    Rect grid2 2 2 ∧ 0 < 2 ∧
    ((∃ f', updateStrategies grid2 = .ok f' ∧
      ∀ i j : Nat, i < 2 → j < 2 →
        ∃ c c', cellAt grid2 i j = .ok c ∧ cellAt f' i j = .ok c' ∧ c'.pre_kind = c.kind) ∧
    (AllCD grid2 → ∀ (b : ℚ) (n : Nat),
      ∃ fn f', evolve grid2 (n : Int) b = .ok fn ∧ evolve grid2 ((n : Int) + 1) b = .ok f' ∧
        ∀ i j : Nat, i < 2 → j < 2 →
          ∃ c c', cellAt fn i j = .ok c ∧ cellAt f' i j = .ok c' ∧ c'.pre_kind = c.kind)) :=
  ⟨by decide, by decide, updateStrategies_saves_kind grid2 2 2 (by decide) (by decide)⟩

/-- Claim C16 as stated fails: after one step on the field `CD / DC` with
`b = 3`, cell `(0, 0)` has score 2, while the sum of the rewards over its block
computed from the kinds of the returned field, which are all `"D"`, is 0. -/
theorem evolve_grid2_score_is_stale :
    ∃ f', evolve grid2 1 3 = .ok f' ∧ scoreAt f' 0 0 = 2 ∧
      blockSum (fun x y =>
        if 0 ≤ x ∧ x < 2 ∧ 0 ≤ y ∧ y < 2 then reward (kindAt f' 0 0) (kindAt f' x y) 3
        else 0) 0 0 = 0 := by
  refine ⟨[[⟨"D", 2, "C"⟩, ⟨"D", 6, "D"⟩], [⟨"D", 6, "D"⟩, ⟨"D", 2, "C"⟩]], by decide!,
    by decide!, ?_⟩
  rw [blockSum_eq]
  decide!

/-! ## Faults -/

/-- On a rectangular field, a coordinate that `inField` accepts can be read. -/
theorem cellAt_of_inField {field : Field} {rows cols : Nat} (h : Rect field rows cols)
    (x y : Int) (hin : inField field x y = true) : ∃ c, cellAt field x y = .ok c := by
  rw [h.inField_eq, decide_eq_true_eq] at hin
  obtain ⟨hx0, hx1, hy0, hy1⟩ := hin
  obtain ⟨x', rfl⟩ := Int.eq_ofNat_of_zero_le hx0
  obtain ⟨y', rfl⟩ := Int.eq_ofNat_of_zero_le hy0
  obtain ⟨c, hc⟩ := h.cell?_isSome (i := x') (j := y') (by omega) (by omega)
  exact ⟨c, cellAt_of_cell? field x' y' c hc⟩

/-- Claim C18. On a rectangular field with at least one row whose kinds are all
`"C"` or `"D"`, for every `b` and every number of steps, `evolve` returns
normally: no index panic and no `gameBetween` panic occurs in any step. In
every step, on the field `fn` before the step and the snapshot `snap` that
`updateStrategies` takes, every coordinate that `inField` accepts can be read,
and `game` and `decide` return normally at every cell. -/
theorem evolve_no_fault (field : Field) (rows cols : Nat) (b : ℚ)
    (hrect : Rect field rows cols) (hrows : 0 < rows) (hcd : AllCD field) :
    (∀ nsteps : Int, ∃ f', evolve field nsteps b = .ok f') ∧
      ∀ n : Nat, ∃ fn f1 snap f2, evolve field (n : Int) b = .ok fn ∧
        updateScores fn b = .ok f1 ∧ snapshot f1 f1.length cols = .ok snap ∧
        updateStrategies f1 = .ok f2 ∧
        (∀ x y : Int, inField fn x y = true → ∃ c, cellAt fn x y = .ok c) ∧
        (∀ i j : Nat, i < rows → j < cols → ∃ s, game fn i j b = .ok s) ∧
        (∀ x y : Int, inField snap x y = true → ∃ c, cellAt snap x y = .ok c) ∧
        (∀ i j : Nat, i < rows → j < cols → ∃ k, decide snap i j = .ok k) := by
  have hk : KindsIn (fun k => k = "C" ∨ k = "D") field := (allCD_iff_cell? field).mp hcd
  have inv := evolveLoop_inv hrect hrows (fun k => k = "C" ∨ k = "D") (fun _ h => h) hk b
  constructor
  · intro nsteps
    obtain ⟨f', e, _, _⟩ := inv nsteps.toNat
    exact ⟨f', e⟩
  · intro n
    obtain ⟨fn, e, hr, hkn⟩ := inv n
    have hcdn : AllCD fn := (allCD_iff_cell? fn).mpr hkn
    have hr1 := hr.mapCells (newScore fn rows cols b)
    have hsnap := (rect_createField rows cols).mapCells
      (snapCell (mapCells (newScore fn rows cols b) fn))
    refine ⟨fn, mapCells (newScore fn rows cols b) fn,
      mapCells (snapCell (mapCells (newScore fn rows cols b) fn)) (createField rows cols),
      mapCells (newKind (mapCells (newScore fn rows cols b) fn) rows cols)
        (mapCells (newScore fn rows cols b) fn),
      by rw [evolve_natCast, e], updateScores_eq hr hrows hcdn b, ?_,
      updateStrategies_eq hr1 hrows, cellAt_of_inField hr, ?_, cellAt_of_inField hsnap, ?_⟩
    · rw [hr1.1]
      exact snapshot_eq hr1
    · intro i j hi hj
      exact ⟨_, game_eq hr hcdn hi hj b⟩
    · intro i j hi hj
      exact ⟨_, decide_eq hsnap hi hj⟩

/-- Claim C18 at the field `CD / DC` with `b = 3`. -/
theorem evolve_no_fault_witness :
    Rect grid2 2 2 ∧ 0 < 2 ∧ AllCD grid2 ∧
    ((∀ nsteps : Int, ∃ f', evolve grid2 nsteps 3 = .ok f') ∧
      ∀ n : Nat, ∃ fn f1 snap f2, evolve grid2 (n : Int) 3 = .ok fn ∧
        updateScores fn 3 = .ok f1 ∧ snapshot f1 f1.length 2 = .ok snap ∧
        updateStrategies f1 = .ok f2 ∧
        (∀ x y : Int, inField fn x y = true → ∃ c, cellAt fn x y = .ok c) ∧
        (∀ i j : Nat, i < 2 → j < 2 → ∃ s, game fn i j 3 = .ok s) ∧
        (∀ x y : Int, inField snap x y = true → ∃ c, cellAt snap x y = .ok c) ∧
        (∀ i j : Nat, i < 2 → j < 2 → ∃ k, decide snap i j = .ok k)) :=
  ⟨by decide, by decide, by decide,
    evolve_no_fault grid2 2 2 3 (by decide) (by decide) (by decide)⟩

/-! ## Fields without cells -/

theorem mapCells_same {field : Field} {rows cols : Nat} (h : Rect field rows cols) :
    mapCells (fun _ _ c => c) field = field := by
  apply field_ext (h.mapCells _) h
  intro i j _ _
  rw [cell?_mapCells]
  cases cell? field i j <;> rfl

/-- A sweep over rows without columns runs no body and returns the field. -/
theorem sweep_no_columns {field : Field} {rows : Nat} (h : Rect field rows 0)
    (body : Field → Nat → Nat → Except Fault Field) :
    (List.range rows).foldlM (fun f i =>
        (List.range 0).foldlM (fun f j => body f i j) f) field = .ok field := by
  have key := sweep_eq_mapCells h body (fun _ _ c => c)
    (fun i j _ hj => absurd hj (Nat.not_lt_zero j))
  rw [mapCells_same h] at key
  exact key

theorem step_no_columns {field : Field} {rows : Nat} (h : Rect field rows 0)
    (hrows : 0 < rows) (b : ℚ) : step field b = .ok field := by
  have e1 : updateScores field b = .ok field := by
    rw [updateScores_eq_fold, h.lenRow0 hrows, h.1, ok_bind]
    exact sweep_no_columns h (scoreBody b)
  have e2 : updateStrategies field = .ok field := by
    rw [updateStrategies_eq_fold, h.lenRow0 hrows, h.1, ok_bind, snapshot_eq h, ok_bind]
    exact sweep_no_columns h (stratBody _)
  unfold step
  rw [e1, ok_bind, e2]

/-- Claim C19 as stated fails: on the field without rows `evolve` with one step
stops with the index panic of `len(field[0])`, so it does not return. -/
theorem evolve_no_rows_faults :
    evolve ([] : Field) 1 3 = .error .indexOutOfRange ∧
      ¬ ∃ f', evolve ([] : Field) 1 3 = .ok f' := by
  have e : evolve ([] : Field) 1 3 = .error .indexOutOfRange := by decide
  refine ⟨e, ?_⟩
  rintro ⟨f', hf⟩
  rw [e] at hf
  cases hf

/-- Claim C19, amended. On a field with one or more rows, all of zero columns,
for every `b` and every number of steps, `evolve` returns normally, `inField`
accepts no coordinate (every neighbourhood is empty), and the returned field
is the input. -/
theorem evolve_no_columns (field : Field) (rows : Nat) (b : ℚ) (nsteps : Int)
    (hrect : Rect field rows 0) (hrows : 0 < rows) :
    evolve field nsteps b = .ok field ∧ ∀ x y : Int, inField field x y = false := by
  constructor
  · unfold evolve
    induction nsteps.toNat with
    | zero => rfl
    | succ n ih => rw [evolveLoop_succ, ih, ok_bind, step_no_columns hrect hrows]
  · intro x y
    rw [hrect.inField_eq, decide_eq_false_iff_not]
    intro hh
    have := hh.2.2.2
    have := hh.2.2.1
    omega

/-- Claim C19, amended, at the field of two rows without columns, `b = 3`,
two steps. -/
theorem evolve_no_columns_witness :
    Rect ([[], []] : Field) 2 0 ∧ 0 < 2 ∧
    (evolve ([[], []] : Field) 2 3 = .ok [[], []] ∧
      ∀ x y : Int, inField ([[], []] : Field) x y = false) :=
  ⟨by decide, by decide, evolve_no_columns [[], []] 2 3 2 (by decide) (by decide)⟩

/-! ## The program over an arbitrary score arithmetic: reading, writing and sweeps -/

namespace AnyNum

theorem cellAt_natCast_g {γ : Type} (field : (List (List γ))) (i j : Nat) :
    cellAt field (i : Int) (j : Int) = orFault (cell? field i j) := by
  unfold cellAt cell?
  rw [index_natCast]
  cases h : field[i]? with
  | none => rfl
  | some r =>
    show index r (j : Int) = _
    rw [index_natCast]
    rfl

theorem cellAt_of_cell?_g {γ : Type} (field : (List (List γ))) (i j : Nat) (c : γ) (h : cell? field i j = some c) :
    cellAt field (i : Int) (j : Int) = .ok c := by
  rw [cellAt_natCast_g, h]
  rfl

theorem Rect.cell?_isSome_g {γ : Type} {field : (List (List γ))} {rows cols : Nat} (h : Rect field rows cols)
    {i j : Nat} (hi : i < rows) (hj : j < cols) : ∃ c, cell? field i j = some c := by
  obtain ⟨hl, hr⟩ := h
  have hi2 : i < field.length := by omega
  have hrow : field[i]? = some field[i] := List.getElem?_eq_getElem hi2
  have hlen : (field[i]).length = cols := hr _ (List.getElem_mem hi2)
  have hj2 : j < (field[i]).length := by omega
  refine ⟨(field[i])[j], ?_⟩
  simp [cell?, hrow, List.getElem?_eq_getElem hj2]

theorem Rect.cell?_eq_none_g {γ : Type} {field : (List (List γ))} {rows cols : Nat} (h : Rect field rows cols)
    {i j : Nat} (hij : ¬ (i < rows ∧ j < cols)) : cell? field i j = none := by
  obtain ⟨hl, hr⟩ := h
  unfold cell?
  cases hrow : field[i]? with
  | none => rfl
  | some r =>
    have hi2 : i < field.length := by
      rcases Nat.lt_or_ge i field.length with h1 | h1
      · exact h1
      · rw [List.getElem?_eq_none h1] at hrow
        cases hrow
    have hmem : r ∈ field := List.getElem?_mem hrow
    have hlen := hr r hmem
    show r[j]? = none
    apply List.getElem?_eq_none
    omega

/-- On a rectangular field `inField` is the bounds test of its comment. -/
theorem Rect.inField_eq_g {γ : Type} {field : (List (List γ))} {rows cols : Nat} (h : Rect field rows cols)
    (x y : Int) :
    inField field x y
      = Decidable.decide (0 ≤ x ∧ x < (rows : Int) ∧ 0 ≤ y ∧ y < (cols : Int)) := by
  obtain ⟨hl, hr⟩ := h
  cases field with
  | nil =>
    simp at hl
    subst hl
    simp [inField]
    intro h1 h2
    omega
  | cons r rest =>
    have hlen : r.length = cols := hr r (by simp)
    simp only [inField, hlen, hl]
    simp [Bool.decide_and, Bool.and_assoc]

theorem cell?_mapCells_g {γ : Type} (g : Nat → Nat → γ → γ) (field : (List (List γ))) (i j : Nat) :
    cell? (mapCells g field) i j = (cell? field i j).map (g i j) := by
  unfold cell? mapCells
  rw [List.getElem?_mapIdx]
  cases field[i]? with
  | none => rfl
  | some r =>
    show (r.mapIdx fun j c => g i j c)[j]? = Option.map (g i j) r[j]?
    rw [List.getElem?_mapIdx]

theorem Rect.mapCells_g {γ : Type} {field : (List (List γ))} {rows cols : Nat} (h : Rect field rows cols)
    (g : Nat → Nat → γ → γ) : Rect (mapCells g field) rows cols := by
  obtain ⟨hl, hr⟩ := h
  refine ⟨by simp [mapCells, hl], ?_⟩
  intro r hmem
  obtain ⟨n, hn⟩ := List.mem_iff_getElem?.mp hmem
  unfold mapCells at hn
  rw [List.getElem?_mapIdx] at hn
  cases hrow : field[n]? with
  | none => rw [hrow] at hn; cases hn
  | some r0 =>
    rw [hrow] at hn
    have hn2 : (r0.mapIdx fun j c => g n j c) = r := Option.some.inj hn
    rw [← hn2, List.length_mapIdx]
    exact hr r0 (List.getElem?_mem hrow)

/-- Two rectangular fields of the same size with the same cells are equal. -/
theorem field_ext_g {γ : Type} {f f' : (List (List γ))} {rows cols : Nat} (h : Rect f rows cols)
    (h' : Rect f' rows cols)
    (hc : ∀ i j, i < rows → j < cols → cell? f i j = cell? f' i j) : f = f' := by
  obtain ⟨hl, hr⟩ := h
  obtain ⟨hl', hr'⟩ := h'
  apply List.ext_getElem (by omega)
  intro i h1 h2
  have e1 : (f[i]).length = cols := hr _ (List.getElem_mem h1)
  have e2 : (f'[i]).length = cols := hr' _ (List.getElem_mem h2)
  apply List.ext_getElem (by omega)
  intro j h3 h4
  have := hc i j (by omega) (by omega)
  simp only [cell?, List.getElem?_eq_getElem h1, List.getElem?_eq_getElem h2,
    Option.some_bind, List.getElem?_eq_getElem h3, List.getElem?_eq_getElem h4,
    Option.some.injEq] at this
  exact this

/-- A write inside a rectangular field returns normally and changes that cell only. -/
theorem setCell_ok_g {γ : Type} {field : (List (List γ))} {rows cols : Nat} (h : Rect field rows cols)
    {i j : Nat} (hi : i < rows) (hj : j < cols) (c : γ) :
    ∃ f', setCell field i j c = .ok f' ∧ Rect f' rows cols ∧
      ∀ i' j', cell? f' i' j' = if i' = i ∧ j' = j then some c else cell? field i' j' := by
  obtain ⟨hl, hr⟩ := h
  have hi2 : i < field.length := by omega
  have hrow : field[i]? = some field[i] := List.getElem?_eq_getElem hi2
  have hlen : (field[i]).length = cols := hr _ (List.getElem_mem hi2)
  refine ⟨field.set i ((field[i]).set j c), ?_, ⟨by simp [hl], ?_⟩, ?_⟩
  · simp [setCell, hrow, hlen, hj]
  · intro r hmem
    rcases List.mem_or_eq_of_mem_set hmem with h1 | h1
    · exact hr r h1
    · rw [h1, List.length_set]
      exact hlen
  · intro i' j'
    unfold cell?
    rw [List.getElem?_set]
    by_cases e : i = i'
    · subst e
      simp only [hi2, if_true, true_and, Option.some_bind, hrow]
      rw [List.getElem?_set]
      by_cases e2 : j = j'
      · subst e2
        simp [hlen, hj]
      · have e3 : ¬ j' = j := fun x => e2 x.symm
        simp [e2, e3]
    · have e3 : ¬ i' = i := fun x => e x.symm
      simp [e, e3]

theorem cell?_stage_g {γ : Type} (g : Nat → Nat → γ → γ) (i j : Nat) (field : (List (List γ))) (i' j' : Nat) :
    cell? (stage g i j field) i' j'
      = (cell? field i' j').map
          (fun c => if i' < i ∨ (i' = i ∧ j' < j) then g i' j' c else c) := by
  unfold stage
  rw [cell?_mapCells_g]

theorem Rect.stage_g {γ : Type} {field : (List (List γ))} {rows cols : Nat} (h : Rect field rows cols)
    (g : Nat → Nat → γ → γ) (i j : Nat) : Rect (stage g i j field) rows cols :=
  h.mapCells_g _

theorem stage_zero_g {γ : Type} {field : (List (List γ))} {rows cols : Nat} (h : Rect field rows cols)
    (g : Nat → Nat → γ → γ) : stage g 0 0 field = field := by
  apply field_ext_g (h.stage_g g 0 0) h
  intro i' j' _ _
  rw [cell?_stage_g]
  cases cell? field i' j' <;> simp

theorem stage_row_end_g {γ : Type} {field : (List (List γ))} {rows cols : Nat} (h : Rect field rows cols)
    (g : Nat → Nat → γ → γ) (i : Nat) :
    stage g i cols field = stage g (i + 1) 0 field := by
  apply field_ext_g (h.stage_g g i cols) (h.stage_g g (i + 1) 0)
  intro i' j' _ hj
  rw [cell?_stage_g, cell?_stage_g]
  have e : (i' < i ∨ (i' = i ∧ j' < cols)) ↔ (i' < i + 1 ∨ (i' = i + 1 ∧ j' < 0)) := by
    constructor
    · intro h1; left; omega
    · intro h1
      rcases h1 with h1 | h1
      · rcases Nat.lt_or_ge i' i with h2 | h2
        · left; exact h2
        · right; exact ⟨by omega, hj⟩
      · omega
  simp only [e]

theorem stage_full_g {γ : Type} {field : (List (List γ))} {rows cols : Nat} (h : Rect field rows cols)
    (g : Nat → Nat → γ → γ) : stage g rows 0 field = mapCells g field := by
  apply field_ext_g (h.stage_g g rows 0) (h.mapCells_g g)
  intro i' j' hi _
  rw [cell?_stage_g, cell?_mapCells_g]
  have e : (i' < rows ∨ (i' = rows ∧ j' < 0)) := Or.inl hi
  simp only [e, if_true]

/-- A field that differs from a stage of the sweep only by the rewritten cell
at the sweep position is the next stage. -/
theorem eq_stage_succ_g {γ : Type} {field f' : (List (List γ))} {rows cols : Nat} (h : Rect field rows cols)
    (g : Nat → Nat → γ → γ) {i j : Nat} (c0 : γ)
    (hc : cell? field i j = some c0) (h2 : Rect f' rows cols)
    (h3 : ∀ i' j', cell? f' i' j'
      = if i' = i ∧ j' = j then some (g i j c0) else cell? (stage g i j field) i' j') :
    f' = stage g i (j + 1) field := by
  apply field_ext_g h2 (h.stage_g g i (j + 1))
  intro i' j' _ _
  rw [h3, cell?_stage_g, cell?_stage_g]
  by_cases e : i' = i ∧ j' = j
  · obtain ⟨e1, e2⟩ := e
    subst e1 e2
    simp [hc]
  · rw [if_neg e]
    congr 1
    funext c
    have e4 : (i' < i ∨ (i' = i ∧ j' < j)) ↔ (i' < i ∨ (i' = i ∧ j' < j + 1)) := by
      constructor
      · intro h4
        rcases h4 with h4 | h4
        · left; exact h4
        · right; exact ⟨h4.1, by omega⟩
      · intro h4
        rcases h4 with h4 | h4
        · left; exact h4
        · right
          refine ⟨h4.1, ?_⟩
          have : j' ≠ j := fun x => e ⟨h4.1, x⟩
          omega
    simp only [e4]

/-- Writing the rewritten cell at the sweep position moves the sweep one cell on. -/
theorem setCell_stage_g {γ : Type} {field : (List (List γ))} {rows cols : Nat} (h : Rect field rows cols)
    (g : Nat → Nat → γ → γ) {i j : Nat} (hi : i < rows) (hj : j < cols) (c0 : γ)
    (hc : cell? field i j = some c0) :
    setCell (stage g i j field) i j (g i j c0) = .ok (stage g i (j + 1) field) := by
  obtain ⟨f', h1, h2, h3⟩ := setCell_ok_g (h.stage_g g i j) hi hj (g i j c0)
  rw [h1, eq_stage_succ_g h g c0 hc h2 h3]

/-- A row-major sweep whose body, at each position, performs the rewrite
`g` of that cell, returns the field with every cell rewritten by `g`. -/
theorem sweep_eq_mapCells_g {γ : Type} {field : (List (List γ))} {rows cols : Nat} (h : Rect field rows cols)
    (body : (List (List γ)) → Nat → Nat → Except Fault (List (List γ))) (g : Nat → Nat → γ → γ)
    (hbody : ∀ i j, i < rows → j < cols →
      body (stage g i j field) i j = .ok (stage g i (j + 1) field)) :
    (List.range rows).foldlM (fun f i =>
        (List.range cols).foldlM (fun f j => body f i j) f) field
      = .ok (mapCells g field) := by
  have key := foldlM_range_chain
    (fun f i => (List.range cols).foldlM (fun f j => body f i j) f)
    (fun i => stage g i 0 field) rows (fun i hi => by
      show (List.range cols).foldlM (fun f j => body f i j) (stage g i 0 field)
        = .ok (stage g (i + 1) 0 field)
      rw [← stage_row_end_g h]
      exact foldlM_range_chain (fun f j => body f i j) (fun j => stage g i j field) cols
        (fun j hj => hbody i j hi hj))
  simp only [stage_zero_g h, stage_full_g h] at key
  exact key

theorem cellAt_eq_g {γ : Type} (field : (List (List γ))) (x y : Int) :
    cellAt field x y
      = if 0 ≤ x ∧ 0 ≤ y then orFault (cell? field x.toNat y.toNat)
        else .error .indexOutOfRange := by
  by_cases hx : 0 ≤ x
  · obtain ⟨x', rfl⟩ := Int.eq_ofNat_of_zero_le hx
    by_cases hy : 0 ≤ y
    · obtain ⟨y', rfl⟩ := Int.eq_ofNat_of_zero_le hy
      simp [cellAt_natCast_g]
    · have hy2 : y < 0 := by omega
      simp only [hy, and_false, if_false]
      unfold cellAt
      rw [index_natCast]
      cases field[x']? with
      | none => rfl
      | some r => exact index_neg r y hy2
  · have hx2 : x < 0 := by omega
    simp only [hx, false_and, if_false]
    unfold cellAt
    rw [index_neg field x hx2]
    rfl

theorem Rect.lenRow0_g {γ : Type} {field : (List (List γ))} {rows cols : Nat} (h : Rect field rows cols)
    (hrows : 0 < rows) : lenRow0 field = .ok cols := by
  obtain ⟨hl, hr⟩ := h
  cases field with
  | nil => simp at hl; omega
  | cons r rest =>
    have : r.length = cols := hr r (by simp)
    simp [lenRow0, this]

theorem cell?_lt_g {γ : Type} {field : (List (List γ))} {rows cols : Nat} (h : Rect field rows cols)
    {i j : Nat} {c : γ} (hc : cell? field i j = some c) : i < rows ∧ j < cols := by
  by_contra hn
  rw [h.cell?_eq_none_g hn] at hc
  cases hc

end AnyNum

/-! ## The program over an arbitrary score arithmetic: the score phase -/

namespace AnyNum

theorem gameBetween_ok_g {α : Type} (A : Arith α) {me them : String} (b : α)
    (h1 : me = "C" ∨ me = "D") (h2 : them = "C" ∨ them = "D") :
    gameBetween A me them b = .ok (reward A me them b) := by
  rcases h1 with h1 | h1 <;> rcases h2 with h2 | h2 <;> subst h1 <;> subst h2 <;>
    simp [gameBetween, reward]

theorem AllCD.of_cell?_g {α : Type} {field : Field α} (h : AllCD field) {i j : Nat}
    {c : Cell α} (hc : cell? field i j = some c) : c.kind = "C" ∨ c.kind = "D" := by
  unfold cell? at hc
  cases hrow : field[i]? with
  | none => rw [hrow] at hc; cases hc
  | some r =>
    rw [hrow] at hc
    exact h r (List.getElem?_mem hrow) c (List.getElem?_mem hc)

theorem kindAt_of_cell?_g {α : Type} {field : Field α} {i j : Nat} {c : Cell α}
    (hc : cell? field i j = some c) : kindAt field (i : Int) (j : Int) = c.kind := by
  simp [kindAt, cellAt_of_cell?_g field i j c hc]

theorem game_eq_fold_g {α : Type} (A : Arith α) (field : Field α) (i j : Int) (b : α) :
    game A field i j b
      = (span i).foldlM (fun res x =>
          (span j).foldlM (fun res y => gameBody A field i j b res x y) res) A.zero := rfl

theorem gameBody_eq_g {α : Type} (A : Arith α) {field : Field α} {rows cols : Nat}
    (h : Rect field rows cols) (hcd : AllCD field) {i j : Nat} (hi : i < rows)
    (hj : j < cols) (b res : α) (x y : Int) :
    gameBody A field i j b res x y
      = .ok (if InGrid rows cols (x, y) then
          A.add res (reward A (kindAt field i j) (kindAt field x y) b) else res) := by
  unfold gameBody InGrid
  rw [h.inField_eq_g]
  by_cases hb : 0 ≤ x ∧ x < (rows : Int) ∧ 0 ≤ y ∧ y < (cols : Int)
  · obtain ⟨hx0, hx1, hy0, hy1⟩ := hb
    obtain ⟨x', rfl⟩ := Int.eq_ofNat_of_zero_le hx0
    obtain ⟨y', rfl⟩ := Int.eq_ofNat_of_zero_le hy0
    obtain ⟨c, hc⟩ := h.cell?_isSome_g hi hj
    obtain ⟨d, hd⟩ := h.cell?_isSome_g (i := x') (j := y') (by omega) (by omega)
    have hb2 : 0 ≤ (x' : Int) ∧ (x' : Int) < (rows : Int) ∧ 0 ≤ (y' : Int)
        ∧ (y' : Int) < (cols : Int) := ⟨hx0, hx1, hy0, hy1⟩
    simp only [hb2, and_self, decide_True, if_true]
    rw [cellAt_of_cell?_g field i j c hc, cellAt_of_cell?_g field x' y' d hd,
      kindAt_of_cell?_g hc, kindAt_of_cell?_g hd, ok_bind, ok_bind,
      gameBetween_ok_g A b (hcd.of_cell?_g hc) (hcd.of_cell?_g hd), ok_bind]
    rfl
  · simp only [hb, decide_False, if_false]
    simp
    rfl

/-- On a rectangular field of `"C"` and `"D"` cells, `game` at a cell of the
field returns the sum accumulated in scan order over the part of the 3 by 3
block that lies in the field. -/
theorem game_eq_g {α : Type} (A : Arith α) {field : Field α} {rows cols : Nat}
    (h : Rect field rows cols) (hcd : AllCD field) {i j : Nat} (hi : i < rows)
    (hj : j < cols) (b : α) :
    game A field i j b = .ok (scanSum A rows cols (kindAt field) b i j) := by
  rw [game_eq_fold_g]
  have e1 : ∀ x : Int, (fun res y => gameBody A field i j b res x y)
      = (fun res y => (Except.ok (if InGrid rows cols (x, y) then
          A.add res (reward A (kindAt field i j) (kindAt field x y) b) else res) :
          Except Fault α)) := by
    intro x
    funext res y
    exact gameBody_eq_g A h hcd hi hj b res x y
  simp only [e1, foldlM_ok]
  unfold scanSum block
  simp only [span, List.foldl_cons, List.foldl_nil]

theorem allCD_iff_cell?_g {α : Type} (field : Field α) :
    AllCD field ↔ ∀ i j c, cell? field i j = some c → c.kind = "C" ∨ c.kind = "D" := by
  constructor
  · intro h i j c hc
    exact h.of_cell?_g hc
  · intro h r hr c hc
    obtain ⟨i, hi⟩ := List.mem_iff_getElem?.mp hr
    obtain ⟨j, hj⟩ := List.mem_iff_getElem?.mp hc
    apply h i j c
    simp [cell?, hi, hj]

theorem kindAt_mapCells_g {α : Type} (g : Nat → Nat → Cell α → Cell α)
    (hg : ∀ i j c, (g i j c).kind = c.kind) (field : Field α) :
    kindAt (mapCells g field) = kindAt field := by
  funext x y
  unfold kindAt
  rw [cellAt_eq_g, cellAt_eq_g]
  by_cases hb : 0 ≤ x ∧ 0 ≤ y
  · simp only [hb, and_self, if_true]
    rw [cell?_mapCells_g]
    cases cell? field x.toNat y.toNat with
    | none => rfl
    | some c => exact hg _ _ c
  · simp only [hb, if_false]

theorem AllCD.keep_kinds_g {α : Type} {field : Field α} (h : AllCD field)
    (g : Nat → Nat → Cell α → Cell α) (hg : ∀ i j c, (g i j c).kind = c.kind) :
    AllCD (mapCells g field) := by
  rw [allCD_iff_cell?_g] at h ⊢
  intro i j c hc
  rw [cell?_mapCells_g] at hc
  cases hc0 : cell? field i j with
  | none => rw [hc0] at hc; cases hc
  | some c0 =>
    rw [hc0] at hc
    have e : g i j c0 = c := Option.some.inj hc
    rw [← e, hg]
    exact h i j c0 hc0

theorem updateScores_eq_fold_g {α : Type} (A : Arith α) (field : Field α) (b : α) :
    updateScores A field b
      = (lenRow0 field >>= fun col =>
          (List.range field.length).foldlM (fun f i =>
            (List.range col).foldlM (fun f j => scoreBody A b f i j) f) field) := rfl

/-- The score phase in closed form, for every arithmetic: the in-place sweep
returns the field in which every cell has as score the sum that `game`
accumulates on the input field, and is otherwise unchanged. -/
theorem updateScores_eq_g {α : Type} (A : Arith α) {field : Field α} {rows cols : Nat}
    (h : Rect field rows cols) (hrows : 0 < rows) (hcd : AllCD field) (b : α) :
    updateScores A field b = .ok (mapCells (newScore A field rows cols b) field) := by
  rw [updateScores_eq_fold_g, h.lenRow0_g hrows, h.1, ok_bind]
  apply sweep_eq_mapCells_g h (scoreBody A b)
  intro i j hi hj
  obtain ⟨c0, hc0⟩ := h.cell?_isSome_g hi hj
  have hkind : ∀ i' j' (c : Cell α), (if i' < i ∨ (i' = i ∧ j' < j) then
      newScore A field rows cols b i' j' c else c).kind = c.kind := by
    intro i' j' c
    split <;> rfl
  have hg : game A (stage (newScore A field rows cols b) i j field) i j b
      = .ok (scanSum A rows cols (kindAt field) b i j) := by
    rw [game_eq_g A (h.stage_g _ i j) (hcd.keep_kinds_g _ hkind) hi hj]
    unfold stage
    rw [kindAt_mapCells_g _ hkind]
  have hc : cellAt (stage (newScore A field rows cols b) i j field) i j = .ok c0 := by
    apply cellAt_of_cell?_g
    rw [cell?_stage_g, hc0]
    simp
  unfold scoreBody
  rw [hg, ok_bind, hc, ok_bind]
  exact setCell_stage_g h (newScore A field rows cols b) hi hj c0 hc0

end AnyNum

/-! ## The program over an arbitrary score arithmetic: the strategy phase -/

namespace AnyNum

theorem decide_eq_fold_g {α : Type} (A : Arith α) (field : Field α) (i j : Int) :
    decide A field i j
      = (cellAt field i j >>= fun own =>
          (span i).foldlM (fun acc x =>
            (span j).foldlM (fun acc y => decideBody A field acc x y) acc) (own.kind, own.score)
          >>= fun best => pure best.1) := rfl

theorem decideBody_eq_g {α : Type} (A : Arith α) {field : Field α} {rows cols : Nat}
    (h : Rect field rows cols) (acc : String × α) (x y : Int) :
    decideBody A field acc x y = .ok (pick A field rows cols acc (x, y)) := by
  unfold decideBody pick InGrid
  rw [h.inField_eq_g]
  by_cases hb : 0 ≤ x ∧ x < (rows : Int) ∧ 0 ≤ y ∧ y < (cols : Int)
  · obtain ⟨hx0, hx1, hy0, hy1⟩ := hb
    obtain ⟨x', rfl⟩ := Int.eq_ofNat_of_zero_le hx0
    obtain ⟨y', rfl⟩ := Int.eq_ofNat_of_zero_le hy0
    obtain ⟨d, hd⟩ := h.cell?_isSome_g (i := x') (j := y') (by omega) (by omega)
    have hb2 : 0 ≤ (x' : Int) ∧ (x' : Int) < (rows : Int) ∧ 0 ≤ (y' : Int)
        ∧ (y' : Int) < (cols : Int) := ⟨hx0, hx1, hy0, hy1⟩
    simp only [hb2, and_self, decide_True, if_true]
    rw [cellAt_of_cell?_g field x' y' d hd, ok_bind]
    rfl
  · simp only [hb, decide_False, if_false]
    simp
    rfl

/-- On a rectangular field, `decide` at a cell of the field returns the result
of the scan of the 3 by 3 block, started from the cell itself. -/
theorem decide_eq_g {α : Type} (A : Arith α) {field : Field α} {rows cols : Nat}
    (h : Rect field rows cols) {i j : Nat} (hi : i < rows) (hj : j < cols) :
    decide A field i j = .ok (best A field rows cols i j) := by
  obtain ⟨c, hc⟩ := h.cell?_isSome_g hi hj
  rw [decide_eq_fold_g, cellAt_of_cell?_g field i j c hc, ok_bind]
  have e1 : ∀ x : Int, (fun acc y => decideBody A field acc x y)
      = (fun acc y => (Except.ok (pick A field rows cols acc (x, y)) :
          Except Fault (String × α))) := by
    intro x
    funext acc y
    exact decideBody_eq_g A h acc x y
  simp only [e1, foldlM_ok, ok_bind]
  unfold best block
  rw [cellAt_of_cell?_g field i j c hc]
  simp only [span, List.foldl_cons, List.foldl_nil]
  rfl

theorem Rect.at_inGrid_g {α : Type} {field : Field α} {rows cols : Nat}
    (h : Rect field rows cols) {p : Int × Int} (hp : InGrid rows cols p) :
    ∃ c, cell? field p.1.toNat p.2.toNat = some c ∧ cellAt field p.1 p.2 = .ok c := by
  obtain ⟨x, y⟩ := p
  obtain ⟨hx0, hx1, hy0, hy1⟩ := hp
  simp only at hx0 hx1 hy0 hy1
  obtain ⟨x', rfl⟩ := Int.eq_ofNat_of_zero_le hx0
  obtain ⟨y', rfl⟩ := Int.eq_ofNat_of_zero_le hy0
  obtain ⟨c, hc⟩ := h.cell?_isSome_g (i := x') (j := y') (by omega) (by omega)
  exact ⟨c, by simpa using hc, cellAt_of_cell?_g field x' y' c hc⟩

/-- The scan of `decide` keeps a property of the running kind that all kinds
of the field have. -/
theorem pick_fold_kind_g {α : Type} (A : Arith α) {field : Field α} {rows cols : Nat}
    (h : Rect field rows cols) (P : String → Prop) (hP : KindsIn P field)
    (l : List (Int × Int)) (init : String × α) (h0 : P init.1) :
    P (l.foldl (pick A field rows cols) init).1 := by
  induction l generalizing init with
  | nil => exact h0
  | cons a t ih =>
    rw [List.foldl_cons]
    apply ih
    unfold pick
    split
    · rename_i hin
      obtain ⟨c, hc, hca⟩ := h.at_inGrid_g hin
      rw [hca]
      show P (if A.lt init.2 c.score = true then (c.kind, c.score) else init).1
      split
      · exact hP _ _ c hc
      · exact h0
    · exact h0

/-- The kind that `decide` returns is the kind of a cell of the field. -/
theorem best_kind_g {α : Type} (A : Arith α) {field : Field α} {rows cols : Nat}
    (h : Rect field rows cols) {i j : Nat} (hi : i < rows) (hj : j < cols)
    (P : String → Prop) (hP : KindsIn P field) : P (best A field rows cols i j) := by
  obtain ⟨c, hc⟩ := h.cell?_isSome_g hi hj
  unfold best
  rw [cellAt_of_cell?_g field i j c hc]
  exact pick_fold_kind_g A h P hP _ _ (hP i j c hc)

theorem snapshot_eq_fold_g {α : Type} (A : Arith α) (field : Field α) (row col : Nat) :
    snapshot A field row col
      = (List.range row).foldlM (fun f i =>
          (List.range col).foldlM (fun f j => snapBody field f i j) f)
          (createField A row col) := rfl

theorem rect_createField_g {α : Type} (A : Arith α) (rows cols : Nat) :
    Rect (createField A rows cols) rows cols := by
  refine ⟨by simp [createField], ?_⟩
  intro r hr
  rw [createField, List.mem_replicate] at hr
  rw [hr.2, List.length_replicate]

theorem cell?_createField_g {α : Type} (A : Arith α) {rows cols i j : Nat} (hi : i < rows)
    (hj : j < cols) : cell? (createField A rows cols) i j = some (Cell.zero A) := by
  simp [cell?, createField, List.getElem?_replicate, hi, hj]

/-- The snapshot of a rectangular field in closed form. -/
theorem snapshot_eq_g {α : Type} (A : Arith α) {field : Field α} {rows cols : Nat}
    (h : Rect field rows cols) :
    snapshot A field rows cols = .ok (snapOf A field rows cols) := by
  rw [snapshot_eq_fold_g]
  apply sweep_eq_mapCells_g (rect_createField_g A rows cols) (snapBody field)
  intro i j hi hj
  obtain ⟨src, hsrc⟩ := h.cell?_isSome_g hi hj
  have hdst : cellAt (stage (snapCell field) i j (createField A rows cols)) i j
      = .ok (Cell.zero A) := by
    apply cellAt_of_cell?_g
    rw [cell?_stage_g, cell?_createField_g A hi hj]
    simp
  unfold snapBody
  rw [cellAt_of_cell?_g field i j src hsrc, ok_bind, hdst, ok_bind]
  have e : ({ Cell.zero A with score := src.score, kind := src.kind } : Cell α)
      = snapCell field i j (Cell.zero A) := by
    simp [snapCell, hsrc]
  rw [e]
  exact setCell_stage_g (rect_createField_g A rows cols) (snapCell field) hi hj (Cell.zero A)
    (cell?_createField_g A hi hj)

theorem rect_snapOf_g {α : Type} (A : Arith α) (field : Field α) (rows cols : Nat) :
    Rect (snapOf A field rows cols) rows cols :=
  (rect_createField_g A rows cols).mapCells_g _

theorem cell?_snapOf_g {α : Type} (A : Arith α) {field : Field α} {rows cols : Nat}
    (h : Rect field rows cols) (i j : Nat) :
    cell? (snapOf A field rows cols) i j
      = (cell? field i j).map (fun c => { kind := c.kind, score := c.score, pre_kind := "" }) := by
  unfold snapOf
  rw [cell?_mapCells_g]
  by_cases hb : i < rows ∧ j < cols
  · obtain ⟨c, hc⟩ := h.cell?_isSome_g hb.1 hb.2
    rw [cell?_createField_g A hb.1 hb.2, hc]
    simp [snapCell, hc, Cell.zero]
  · rw [(rect_createField_g A rows cols).cell?_eq_none_g hb, h.cell?_eq_none_g hb]
    rfl

theorem kindsIn_snapOf_g {α : Type} (A : Arith α) {field : Field α} {rows cols : Nat}
    (h : Rect field rows cols) (P : String → Prop) (hP : KindsIn P field) :
    KindsIn P (snapOf A field rows cols) := by
  intro i j c hc
  rw [cell?_snapOf_g A h] at hc
  cases hc0 : cell? field i j with
  | none => rw [hc0] at hc; cases hc
  | some c0 =>
    rw [hc0] at hc
    have e := Option.some.inj hc
    rw [← e]
    exact hP i j c0 hc0

theorem updateStrategies_eq_fold_g {α : Type} (A : Arith α) (field : Field α) :
    updateStrategies A field
      = (lenRow0 field >>= fun col =>
          snapshot A field field.length col >>= fun f =>
            (List.range field.length).foldlM (fun fld i =>
              (List.range col).foldlM (fun fld j => stratBody A f fld i j) fld) field) := rfl

/-- The strategy phase in closed form, for every arithmetic: every cell has
saved its kind in `pre_kind` and taken the kind decided on the snapshot; its
score is unchanged. -/
theorem updateStrategies_eq_g {α : Type} (A : Arith α) {field : Field α} {rows cols : Nat}
    (h : Rect field rows cols) (hrows : 0 < rows) :
    updateStrategies A field = .ok (mapCells (newKind A field rows cols) field) := by
  rw [updateStrategies_eq_fold_g, h.lenRow0_g hrows, h.1, ok_bind, snapshot_eq_g A h, ok_bind]
  apply sweep_eq_mapCells_g h (stratBody A _)
  intro i j hi hj
  obtain ⟨c0, hc0⟩ := h.cell?_isSome_g hi hj
  have hF := h.stage_g (newKind A field rows cols) i j
  have hc : cellAt (stage (newKind A field rows cols) i j field) i j = .ok c0 := by
    apply cellAt_of_cell?_g
    rw [cell?_stage_g, hc0]
    simp
  obtain ⟨f1, e1, r1, q1⟩ := setCell_ok_g hF hi hj { c0 with pre_kind := c0.kind }
  have hc1 : cellAt f1 i j = .ok { c0 with pre_kind := c0.kind } := by
    apply cellAt_of_cell?_g
    rw [q1]
    simp
  obtain ⟨f2, e2, r2, q2⟩ := setCell_ok_g r1 hi hj
    { ({ c0 with pre_kind := c0.kind } : Cell α) with
      kind := best A (snapOf A field rows cols) rows cols i j }
  unfold stratBody
  rw [hc, ok_bind, e1, ok_bind, decide_eq_g A (rect_snapOf_g A field rows cols) hi hj,
    ok_bind, hc1, ok_bind, e2]
  congr 1
  apply eq_stage_succ_g h (newKind A field rows cols) c0 hc0 r2
  intro i' j'
  rw [q2, q1]
  by_cases e : i' = i ∧ j' = j
  · rw [if_pos e, if_pos e]
    rfl
  · rw [if_neg e, if_neg e, if_neg e]

end AnyNum

/-! ## The program over an arbitrary score arithmetic: steps and runs -/

namespace AnyNum

theorem kindsIn_mapCells_g {α : Type} {P : String → Prop} {field : Field α}
    (g : Nat → Nat → Cell α → Cell α)
    (hg : ∀ i j c, cell? field i j = some c → P (g i j c).kind) :
    KindsIn P (mapCells g field) := by
  intro i j c hc
  rw [cell?_mapCells_g] at hc
  cases hc0 : cell? field i j with
  | none => rw [hc0] at hc; cases hc
  | some c0 =>
    rw [hc0] at hc
    have e : g i j c0 = c := Option.some.inj hc
    rw [← e]
    exact hg i j c0 hc0

/-- One step of `evolve` on a rectangular field of `"C"` and `"D"` cells, in
closed form, for every arithmetic. -/
theorem step_eq_g {α : Type} (A : Arith α) {field : Field α} {rows cols : Nat}
    (h : Rect field rows cols) (hrows : 0 < rows) (hcd : AllCD field) (b : α) :
    step A field b = .ok (stepOf A field rows cols b) := by
  unfold step stepOf
  rw [updateScores_eq_g A h hrows hcd, ok_bind, updateStrategies_eq_g A (h.mapCells_g _) hrows]

/-- A step keeps the field rectangular and its kinds `"C"` or `"D"`. -/
theorem step_inv_g {α : Type} (A : Arith α) {field : Field α} {rows cols : Nat}
    (h : Rect field rows cols) (hcd : AllCD field) (b : α) :
    Rect (stepOf A field rows cols b) rows cols ∧ AllCD (stepOf A field rows cols b) := by
  refine ⟨(h.mapCells_g _).mapCells_g _, ?_⟩
  have hk : KindsIn (fun k => k = "C" ∨ k = "D") field := (allCD_iff_cell?_g field).mp hcd
  have h1 : KindsIn (fun k => k = "C" ∨ k = "D") (mapCells (newScore A field rows cols b) field) :=
    kindsIn_mapCells_g _ (fun i j c hc => hk i j c hc)
  rw [allCD_iff_cell?_g]
  unfold stepOf
  apply kindsIn_mapCells_g (P := fun k => k = "C" ∨ k = "D")
  intro i j c hc
  obtain ⟨hi, hj⟩ := cell?_lt_g (h.mapCells_g _) hc
  exact best_kind_g A (rect_snapOf_g A _ rows cols) hi hj _
    (kindsIn_snapOf_g A (h.mapCells_g _) _ h1)

theorem evolveLoop_succ_g {α : Type} (A : Arith α) (field : Field α) (n : Nat) (b : α) :
    evolveLoop A field (n + 1) b = (evolveLoop A field n b >>= fun f => step A f b) := by
  unfold evolveLoop
  rw [List.range_succ, List.foldlM_append]
  congr 1
  funext f
  simp only [List.foldlM_cons, List.foldlM_nil]
  show (step A f b >>= pure) = step A f b
  cases step A f b <;> rfl

/-- The loop of `evolve` returns normally on a rectangular field of `"C"` and
`"D"` cells and returns such a field, for every arithmetic. -/
theorem evolveLoop_inv_g {α : Type} (A : Arith α) {field : Field α} {rows cols : Nat}
    (h : Rect field rows cols) (hrows : 0 < rows) (hcd : AllCD field) (b : α) (n : Nat) :
    ∃ f', evolveLoop A field n b = .ok f' ∧ Rect f' rows cols ∧ AllCD f' := by
  induction n with
  | zero => exact ⟨field, rfl, h, hcd⟩
  | succ n ih =>
    obtain ⟨fn, e, hr, hcdn⟩ := ih
    obtain ⟨hr', hcd'⟩ := step_inv_g A hr hcdn b
    exact ⟨_, by rw [evolveLoop_succ_g, e, ok_bind, step_eq_g A hr hrows hcdn], hr', hcd'⟩

/-- The cell that a step leaves at `(i, j)`: its score is the sum that `game`
accumulates from the kinds before the step, its `pre_kind` is the kind before
the step. -/
theorem cell?_stepOf_g {α : Type} (A : Arith α) (field : Field α) (rows cols : Nat) (b : α)
    (i j : Nat) :
    cell? (stepOf A field rows cols b) i j
      = (cell? field i j).map (fun c =>
          { kind := best A (snapOf A (mapCells (newScore A field rows cols b) field) rows cols)
              rows cols i j,
            score := scanSum A rows cols (kindAt field) b i j,
            pre_kind := c.kind }) := by
  unfold stepOf
  rw [cell?_mapCells_g, cell?_mapCells_g]
  cases cell? field i j <;> rfl

theorem preKindAt_stepOf_g {α : Type} (A : Arith α) (field : Field α) (rows cols : Nat)
    (b : α) : preKindAt (stepOf A field rows cols b) = kindAt field := by
  funext x y
  unfold preKindAt kindAt
  rw [cellAt_eq_g, cellAt_eq_g]
  by_cases hb : 0 ≤ x ∧ 0 ≤ y
  · simp only [hb, and_self, if_true]
    rw [cell?_stepOf_g]
    cases cell? field x.toNat y.toNat <;> rfl
  · simp only [hb, if_false]

theorem scores_mapCells_g {α : Type} (g : Nat → Nat → Cell α → Cell α)
    (hg : ∀ i j c, (g i j c).score = c.score) (field : Field α) :
    scores (mapCells g field) = scores field := by
  unfold scores
  apply List.ext_getElem?
  intro i
  unfold mapCells
  rw [List.getElem?_map, List.getElem?_map, List.getElem?_mapIdx]
  cases field[i]? with
  | none => rfl
  | some r =>
    show some ((r.mapIdx fun j c => g i j c).map Cell.score) = some (r.map Cell.score)
    congr 1
    apply List.ext_getElem?
    intro j
    rw [List.getElem?_map, List.getElem?_map, List.getElem?_mapIdx]
    cases r[j]? with
    | none => rfl
    | some c => exact congrArg some (hg i j c)

theorem evolve_natCast_succ_g {α : Type} (A : Arith α) (field : Field α) (n : Nat) (b : α) :
    evolve A field ((n : Int) + 1) b = evolveLoop A field (n + 1) b := by
  have e : ((n : Int) + 1).toNat = n + 1 := by omega
  simp [evolve, e]

theorem evolve_natCast_g {α : Type} (A : Arith α) (field : Field α) (n : Nat) (b : α) :
    evolve A field (n : Int) b = evolveLoop A field n b := by
  simp [evolve]

end AnyNum

/-! ## Scores after a run, for every score arithmetic -/

namespace AnyNum

theorem foldl_add_if {β : Type} (c : β → Prop) [DecidablePred c] (r : β → ℚ) (l : List β)
    (a : ℚ) :
    l.foldl (fun res p => if c p then res + r p else res) a
      = a + (l.map (fun p => if c p then r p else 0)).sum := by
  induction l generalizing a with
  | nil => simp
  | cons x t ih =>
    rw [List.foldl_cons, ih, List.map_cons, List.sum_cons]
    split <;> ring

theorem reward_exact (me them : String) (b : ℚ) :
    reward exactArith me them b = Spatial.reward me them b := by
  unfold reward Spatial.reward gameBetween Spatial.gameBetween
  split_ifs <;> rfl

/-- With exact rational arithmetic the sum that `game` accumulates in scan
order is the sum over the part of the 3 by 3 block that lies in the grid. -/
theorem scanSum_exact (rows cols : Nat) (kind : Int → Int → String) (b : ℚ) (i j : Int) :
    scanSum exactArith rows cols kind b i j
      = ∑ x ∈ Finset.Icc (i - 1) (i + 1), ∑ y ∈ Finset.Icc (j - 1) (j + 1),
          if 0 ≤ x ∧ x < (rows : Int) ∧ 0 ≤ y ∧ y < (cols : Int) then
            Spatial.reward (kind i j) (kind x y) b
          else 0 := by
  show _ = blockSum (fun x y => if 0 ≤ x ∧ x < (rows : Int) ∧ 0 ≤ y ∧ y < (cols : Int) then
      Spatial.reward (kind i j) (kind x y) b else 0) i j
  rw [blockSum_eq]
  simp only [scanSum, reward_exact]
  show (block i j).foldl (fun res p =>
      if InGrid rows cols p then res + Spatial.reward (kind i j) (kind p.1 p.2) b else res) 0 = _
  rw [foldl_add_if]
  simp only [block, InGrid, List.map_cons, List.map_nil, List.sum_cons, List.sum_nil]
  ring

/-- Claim C16, amended. For every score arithmetic (number type, constants,
addition and comparison, `float64` included): on a rectangular field with at
least one row whose kinds are all `"C"` or `"D"`, after `n + 1` steps of
`evolve` the score of every cell is the value that `game` returns on the field
as it was after `n` steps, before the last strategy update: starting from `0`,
the rewards for the kinds of that earlier field are added, in scan order, over
the part of the 3 by 3 block that lies in the field. -/
theorem evolve_score_from_previous_kinds {α : Type} (A : Arith α) (field : Field α)
    (rows cols : Nat) (b : α) (hrect : Rect field rows cols) (hrows : 0 < rows)
    (hcd : AllCD field) (n : Nat) :
    ∃ fn f', evolve A field (n : Int) b = .ok fn ∧ evolve A field ((n : Int) + 1) b = .ok f' ∧
      ∀ i j : Nat, i < rows → j < cols →
        ∃ c, cellAt f' i j = .ok c ∧ game A fn i j b = .ok c.score ∧
          c.score = (block i j).foldl (fun res p =>
            if InGrid rows cols p then
              A.add res (reward A (kindAt fn i j) (kindAt fn p.1 p.2) b)
            else res) A.zero := by
  obtain ⟨fn, e, hr, hcdn⟩ := evolveLoop_inv_g A hrect hrows hcd b n
  refine ⟨fn, stepOf A fn rows cols b, by rw [evolve_natCast_g, e], ?_, ?_⟩
  · rw [evolve_natCast_succ_g, evolveLoop_succ_g, e, ok_bind, step_eq_g A hr hrows hcdn]
  · intro i j hi hj
    obtain ⟨c, hc⟩ := hr.cell?_isSome_g hi hj
    refine ⟨Cell.mk (best A (snapOf A (mapCells (newScore A fn rows cols b) fn) rows cols)
        rows cols i j) (scanSum A rows cols (kindAt fn) b i j) c.kind, ?_,
      game_eq_g A hr hcdn hi hj b, rfl⟩
    apply cellAt_of_cell?_g
    rw [cell?_stepOf_g, hc]
    rfl

/-- Claim C16, amended, with exact rational arithmetic at the field `CD / DC`,
`b = 3`, second step. -/
theorem evolve_score_from_previous_kinds_witness :
    Rect (ofKinds exactArith [["C", "D"], ["D", "C"]]) 2 2 ∧ 0 < 2 ∧
    AllCD (ofKinds exactArith [["C", "D"], ["D", "C"]]) ∧
    ∃ fn f', evolve exactArith (ofKinds exactArith [["C", "D"], ["D", "C"]])
        ((1 : Nat) : Int) 3 = .ok fn ∧
      evolve exactArith (ofKinds exactArith [["C", "D"], ["D", "C"]])
        (((1 : Nat) : Int) + 1) 3 = .ok f' ∧
      ∀ i j : Nat, i < 2 → j < 2 →
        ∃ c, cellAt f' i j = .ok c ∧ game exactArith fn i j 3 = .ok c.score ∧
          c.score = (block i j).foldl (fun res p =>
            if InGrid 2 2 p then
              exactArith.add res (reward exactArith (kindAt fn i j) (kindAt fn p.1 p.2) 3)
            else res) exactArith.zero :=
  ⟨by decide, by decide, by decide,
    evolve_score_from_previous_kinds exactArith (ofKinds exactArith [["C", "D"], ["D", "C"]])
      2 2 3 (by decide) (by decide) (by decide) 1⟩

/-- Claim C20. For every score arithmetic (number type, constants, addition
and comparison, `float64` included): on a rectangular field with at least one
row, `updateStrategies` returns a field with the scores of its input. Hence,
when the kinds are all `"C"` or `"D"`, for every `b` and every `nsteps >= 1`
the score of every cell of the field that `evolve` returns is the
neighbourhood payoff sum of the `pre_kind`s of the returned field, the cell's
own `pre_kind` being the player: starting from `0`, the rewards
`gameBetween(pre_kind[i][j], pre_kind[x][y], b)` are added, in scan order, over
the part of the 3 by 3 block that lies in the field. -/
theorem evolve_score_from_pre_kinds {α : Type} (A : Arith α) (field : Field α)
    (rows cols : Nat) (b : α) (nsteps : Int) (hrect : Rect field rows cols)
    (hrows : 0 < rows) (hcd : AllCD field) (hn : 1 ≤ nsteps) :
    (∀ g : Field α, Rect g rows cols →
      ∃ g', updateStrategies A g = .ok g' ∧ scores g' = scores g) ∧
    ∃ f', evolve A field nsteps b = .ok f' ∧
      ∀ i j : Nat, i < rows → j < cols →
        ∃ c, cellAt f' i j = .ok c ∧
          c.score = (block i j).foldl (fun res p =>
            if InGrid rows cols p then
              A.add res (reward A (preKindAt f' i j) (preKindAt f' p.1 p.2) b)
            else res) A.zero ∧
          ∀ x y : Nat, x < rows → y < cols →
            gameBetween A (preKindAt f' i j) (preKindAt f' x y) b
              = .ok (reward A (preKindAt f' i j) (preKindAt f' x y) b) := by
  constructor
  · intro g hg
    exact ⟨_, updateStrategies_eq_g A hg hrows,
      scores_mapCells_g (newKind A g rows cols) (fun _ _ _ => rfl) g⟩
  · obtain ⟨m, hm⟩ : ∃ m : Nat, nsteps.toNat = m + 1 := ⟨nsteps.toNat - 1, by omega⟩
    obtain ⟨fn, e, hr, hcdn⟩ := evolveLoop_inv_g A hrect hrows hcd b m
    refine ⟨stepOf A fn rows cols b, ?_, ?_⟩
    · unfold evolve
      rw [hm, evolveLoop_succ_g, e, ok_bind, step_eq_g A hr hrows hcdn]
    · intro i j hi hj
      obtain ⟨c, hc⟩ := hr.cell?_isSome_g hi hj
      refine ⟨Cell.mk (best A (snapOf A (mapCells (newScore A fn rows cols b) fn) rows cols)
        rows cols i j) (scanSum A rows cols (kindAt fn) b i j) c.kind, ?_, ?_, ?_⟩
      · apply cellAt_of_cell?_g
        rw [cell?_stepOf_g, hc]
        rfl
      · rw [preKindAt_stepOf_g]
        rfl
      · intro x y hx hy
        obtain ⟨d, hd⟩ := hr.cell?_isSome_g hx hy
        rw [preKindAt_stepOf_g, kindAt_of_cell?_g hc, kindAt_of_cell?_g hd]
        exact gameBetween_ok_g A b (hcdn.of_cell?_g hc) (hcdn.of_cell?_g hd)

/-- Claim C20 with exact rational arithmetic at the field `CD / DC`, `b = 3`,
two steps. -/
theorem evolve_score_from_pre_kinds_witness :
    Rect (ofKinds exactArith [["C", "D"], ["D", "C"]]) 2 2 ∧ 0 < 2 ∧
    AllCD (ofKinds exactArith [["C", "D"], ["D", "C"]]) ∧ (1 : Int) ≤ 2 ∧
    ((∀ g : Field ℚ, Rect g 2 2 →
      ∃ g', updateStrategies exactArith g = .ok g' ∧ scores g' = scores g) ∧
    ∃ f', evolve exactArith (ofKinds exactArith [["C", "D"], ["D", "C"]]) 2 3 = .ok f' ∧
      ∀ i j : Nat, i < 2 → j < 2 →
        ∃ c, cellAt f' i j = .ok c ∧
          c.score = (block i j).foldl (fun res p =>
            if InGrid 2 2 p then
              exactArith.add res
                (reward exactArith (preKindAt f' i j) (preKindAt f' p.1 p.2) 3)
            else res) exactArith.zero ∧
          ∀ x y : Nat, x < 2 → y < 2 →
            gameBetween exactArith (preKindAt f' i j) (preKindAt f' x y) 3
              = .ok (reward exactArith (preKindAt f' i j) (preKindAt f' x y) 3)) :=
  ⟨by decide, by decide, by decide, by decide,
    evolve_score_from_pre_kinds exactArith (ofKinds exactArith [["C", "D"], ["D", "C"]])
      2 2 3 2 (by decide) (by decide) (by decide) (by decide)⟩

end AnyNum

end Spatial

open Spatial
